import Mathlib

/-!
Verification of the move-validation-and-scoring engine of `lettergrid`
(`src/App.tsx`).  The TypeScript source is embedded shallowly: the pure
functions `makeMove` and `undo` (and the helpers they use) are translated
into executable Lean definitions over the same data model.

Modelling conventions, stated once:
* JavaScript numbers are modelled by `Int` for scores/multipliers and by
  `Nat` for row/column indices (the UI only produces non-negative in-bounds
  coordinates).
* Reading a grid cell out of bounds yields `undefined` in JavaScript, which
  the source compares against `null`.  The embedding identifies the two
  (both become `none`); on rectangular grids with in-bounds accesses — the
  only grids the program ever builds — this agrees with the source, and
  theorems that could be affected carry an explicit rectangularity or
  in-bounds hypothesis.
* Writing out of bounds (`List.set` is a no-op there) would throw in
  JavaScript; again theorems that depend on writes carry in-bounds
  hypotheses.
* `tileScores[k]` for a missing key `k` is `undefined` in JavaScript and
  poisons arithmetic with `NaN`; the embedding uses `Option.getD 0`.  No
  theorem below evaluates a score at a missing key.
* The dictionary (`validWords`, a `Set` built from static JSON data that is
  not part of the analysed source) is passed to `makeMove` as an explicit
  `List String` parameter; membership in the set is list membership.
-/

namespace LetterGrid

/-- Source `interface TileSet`: a record from tile key to point value,
modelled as an association list (`Record<string, number>`). -/
structure TileSet where
  tileScores : List (String × Int)
  deriving DecidableEq, Repr

/-- Source `interface Square`. -/
structure Square where
  letterMultiplier : Int
  wordMultiplier : Int
  deriving DecidableEq, Repr

/-- Source `interface PlacedTile`: `tile` is the scoring key, `letter` the
displayed letter. -/
structure PlacedTile where
  tile : String
  letter : String
  deriving DecidableEq, Repr

/-- Source `interface TilePlacement`. -/
structure TilePlacement where
  tile : PlacedTile
  row : Nat
  col : Nat
  deriving DecidableEq, Repr

/-- Source `interface Move`. -/
structure Move where
  tiles : List TilePlacement
  words : List String
  points : Int
  deriving DecidableEq, Repr

/-- Source `interface Player`. -/
structure Player where
  name : String
  deriving DecidableEq, Repr

/-- A tile grid: `(PlacedTile | null)[][]`. -/
abbrev Grid := List (List (Option PlacedTile))

/-- Source `interface Game`. -/
structure Game where
  useDictionary : Bool
  checkTilePlacement : Bool
  squares : List (List Square)
  tiles : Grid
  tileSet : TileSet
  players : List Player
  moves : List Move
  deriving DecidableEq, Repr

/-- Key membership `k in tileScores`, i.e. lookup succeeds. -/
def TileSet.hasKey (ts : TileSet) (k : String) : Bool :=
  (ts.tileScores.lookup k).isSome

/-- Lookup `tileScores[k]` (see the modelling note about missing keys). -/
def TileSet.score (ts : TileSet) (k : String) : Int :=
  (ts.tileScores.lookup k).getD 0

/-- Read `g[r][c]`; out-of-bounds reads give `none`. -/
def getCell (g : Grid) (r c : Nat) : Option PlacedTile :=
  (g.getD r []).getD c none

/-- Write `g[r][c] = v`; out-of-bounds writes are dropped. -/
def setCell (g : Grid) (r c : Nat) (v : Option PlacedTile) : Grid :=
  g.set r ((g.getD r []).set c v)

/-- Row length `g[r].length` (with `0` for a missing row). -/
def rowLen (g : Grid) (r : Nat) : Nat :=
  (g.getD r []).length

/-- Square lookup `game.squares[i][j]` (in-bounds in every use below). -/
def squareAt (squares : List (List Square)) (i j : Nat) : Square :=
  (squares.getD i []).getD j ⟨1, 1⟩

/-- The loop at lines 107–109: apply each placement to the (copied) grid. -/
def applyPlacements (g : Grid) (tps : List TilePlacement) : Grid :=
  tps.foldl (fun acc p => setCell acc p.row p.col (some p.tile)) g

/-- The loop in `undo` (lines 244–246): reset each placed cell to empty. -/
def erasePlacements (g : Grid) (tps : List TilePlacement) : Grid :=
  tps.foldl (fun acc p => setCell acc p.row p.col none) g

/-- Minimum `Math.min(...)` over a list (only evaluated on non-empty lists). -/
def minimumOf : List Nat → Nat
  | [] => 0
  | x :: xs => xs.foldl Nat.min x

/-- Maximum `Math.max(...)` over a list (only evaluated on non-empty lists). -/
def maximumOf : List Nat → Nat
  | [] => 0
  | x :: xs => xs.foldl Nat.max x

/-- Source `intervalsIntersect` (line 79). -/
def intervalsIntersect (start1 end1 start2 end2 : Nat) : Bool :=
  !(decide (end1 < start2) || decide (end2 < start1))

/-- A word rectangle `[minRow, minCol, maxRow, maxCol]`. -/
structure Rect where
  minRow : Nat
  minCol : Nat
  maxRow : Nat
  maxCol : Nat
  deriving DecidableEq, Repr

/-- Source `rectanglesIntersect` (lines 83–87). -/
def rectanglesIntersect (r1 r2 : Rect) : Bool :=
  intervalsIntersect r1.minRow r1.maxRow r2.minRow r2.maxRow &&
    intervalsIntersect r1.minCol r1.maxCol r2.minCol r2.maxCol

/-- Model of `JSON.stringify` on a string with no characters needing an
escape (all uses below satisfy this). -/
def jsonStr (s : String) : String :=
  "\"" ++ s ++ "\""

/-- The message at line 100. -/
def invalidTileMsg (letter : String) : String :=
  "Invalid tile: " ++ jsonStr letter

/-- The message at line 200. -/
def internalErrMsg (i j : Nat) : String :=
  "Internal error: null tile at " ++ toString i ++ "," ++ toString j

/-- The message at line 223. -/
def dictMsg (invalidWords : List String) : String :=
  "Words are not valid: " ++ String.intercalate ", " invalidWords

/-- The loop at lines 98–102: first placement whose displayed letter is
neither a key of the tile-score table nor a space yields an error. -/
def findInvalidTile (ts : TileSet) : List TilePlacement → Option String
  | [] => none
  | p :: rest =>
    if !(ts.hasKey p.tile.letter) && p.tile.letter != " " then
      some (invalidTileMsg p.tile.letter)
    else
      findInvalidTile ts rest

/-- Occupancy test `game.tiles.some((row) => row.some((tile) => tile !== null))`
(line 152). -/
def anyTile (g : Grid) : Bool :=
  g.any (fun row => row.any (fun t => t.isSome))

/-- The gap check at lines 125–131. -/
def hasGap (newTiles : Grid) (minRow maxRow minCol maxCol : Nat) : Bool :=
  (List.range' minRow (maxRow + 1 - minRow)).any fun i =>
    (List.range' minCol (maxCol + 1 - minCol)).any fun j =>
      (getCell newTiles i j).isNone

/-- The `touching` computation at lines 135–151: a cell directly adjacent to
the placements' bounding rectangle holds a tile (in the post-placement
grid). -/
def touchesExisting (newTiles : Grid) (minRow maxRow minCol maxCol : Nat) : Bool :=
  ((List.range' minRow (maxRow + 1 - minRow)).any fun i =>
    (decide (1 ≤ minCol) && (getCell newTiles i (minCol - 1)).isSome)
    || (decide (maxCol + 1 < rowLen newTiles i) && (getCell newTiles i (maxCol + 1)).isSome))
  || ((List.range' minCol (maxCol + 1 - minCol)).any fun j =>
    (decide (1 ≤ minRow) && (getCell newTiles (minRow - 1) j).isSome)
    || (decide (maxRow + 1 < newTiles.length) && (getCell newTiles (maxRow + 1) j).isSome))

/-- The `if (game.checkTilePlacement)` block, lines 116–155. -/
def placementError (oldTiles newTiles : Grid) (tps : List TilePlacement)
    (minRow maxRow minCol maxCol : Nat) : Option String :=
  if tps.length > 7 then
    some "Cannot place more than 7 tiles"
  else if minRow ≠ maxRow ∧ minCol ≠ maxCol then
    some "Tiles must be placed in a line"
  else if hasGap newTiles minRow maxRow minCol maxCol then
    some "Gaps between tiles are not allowed"
  else if !(touchesExisting newTiles minRow maxRow minCol maxCol) && anyTile oldTiles then
    some "Tiles must touch existing tiles"
  else
    none

/-- One step of the run scanner: the pending `range` after seeing an
occupied cell at index `j`. -/
def extendRun (j : Nat) : Option (Nat × Nat) → Option (Nat × Nat)
  | none => some (j, j)
  | some (a, _) => some (a, j)

/-- Emission of a pending run (`range[1] - range[0] > 0`, lines 164 / 178). -/
def emitRun : Option (Nat × Nat) → List (Nat × Nat)
  | none => []
  | some (a, b) => if 0 < b - a then [(a, b)] else []

/-- The scanner of lines 159–186, shared between rows and columns: walk the
occupancy list, collapsing consecutive occupied cells into maximal runs and
emitting a run when its length is at least 2.  The empty-list case plays the
role of the sentinel `null` at index `length`. -/
def scanRuns : List Bool → Nat → Option (Nat × Nat) → List (Nat × Nat)
  | [], _, r => emitRun r
  | occ :: rest, j, r =>
    if occ then
      scanRuns rest (j + 1) (extendRun j r)
    else
      emitRun r ++ scanRuns rest (j + 1) none

/-- Occupancy of row `i` (`newTiles[i][j] === null` tests, lines 162–163). -/
def rowOcc (g : Grid) (i : Nat) : List Bool :=
  (g.getD i []).map Option.isSome

/-- Occupancy of column `j` (lines 176–177). -/
def colOcc (g : Grid) (j : Nat) : List Bool :=
  g.map fun row => (row.getD j none).isSome

/-- Source `allWordRects` (lines 158–186): maximal horizontal runs of every row,
then maximal vertical runs of every column (the column count is the length
of row 0, as in the source). -/
def allWordRects (g : Grid) : List Rect :=
  ((List.range g.length).flatMap fun i =>
    (scanRuns (rowOcc g i) 0 none).map fun ab => ⟨i, ab.1, i, ab.2⟩)
  ++ ((List.range (rowLen g 0)).flatMap fun j =>
    (scanRuns (colOcc g j) 0 none).map fun ab => ⟨ab.1, j, ab.2, j⟩)

/-- The filter at line 188: keep rects that intersect the 1×1 rectangle of
some placement. -/
def newWordRects (newTiles : Grid) (tps : List TilePlacement) : List Rect :=
  (allWordRects newTiles).filter fun w =>
    tps.any fun p => rectanglesIntersect w ⟨p.row, p.col, p.row, p.col⟩

/-- The cells of a word rectangle in the order the nested loops at lines
196–197 visit them. -/
def rectCells (r : Rect) : List (Nat × Nat) :=
  (List.range' r.minRow (r.maxRow + 1 - r.minRow)).flatMap fun i =>
    (List.range' r.minCol (r.maxCol + 1 - r.minCol)).map fun j => (i, j)

/-- The body of the scoring loop, lines 196–210, folded over the remaining
cells.  State: collected letters, accumulated letter points, accumulated
word multiplier. -/
def scoreWordAux (squares : List (List Square)) (ts : TileSet)
    (oldTiles newTiles : Grid) :
    List (Nat × Nat) → List String × Int × Int → Except String (List String × Int × Int)
  | [], acc => .ok acc
  | (i, j) :: rest, (letters, letterPoints, wordMult) =>
    match getCell newTiles i j with
    | none => .error (internalErrMsg i j)
    | some tile =>
      let newWordMult :=
        if getCell oldTiles i j = none then wordMult * (squareAt squares i j).wordMultiplier
        else wordMult
      let letterMult : Int :=
        if getCell oldTiles i j = none then (squareAt squares i j).letterMultiplier
        else 1
      scoreWordAux squares ts oldTiles newTiles rest
        (letters ++ [tile.letter], letterPoints + letterMult * ts.score tile.tile, newWordMult)

/-- The loop at lines 192–214: score each extracted word rectangle in order,
collecting the word strings and summing `letterPoints * wordMultiplier`. -/
def scoreWords (squares : List (List Square)) (ts : TileSet)
    (oldTiles newTiles : Grid) : List Rect → Except String (List String × Int)
  | [] => .ok ([], 0)
  | rect :: rest =>
    match scoreWordAux squares ts oldTiles newTiles (rectCells rect) ([], 0, 1) with
    | .error e => .error e
    | .ok (letters, letterPoints, wordMult) =>
      match scoreWords squares ts oldTiles newTiles rest with
      | .error e => .error e
      | .ok (ws, pts) => .ok (String.join letters :: ws, letterPoints * wordMult + pts)

/-- Source `makeMove` (lines 89–236).  `validWords` is the module-level dictionary
set, passed explicitly (see the modelling notes). -/
def makeMove (validWords : List String) (game : Game) (tps : List TilePlacement) :
    Except String Game :=
  if tps.length = 0 then
    -- Pass.
    .ok { game with moves := game.moves ++ [{ tiles := [], words := [], points := 0 }] }
  else
    match findInvalidTile game.tileSet tps with
    | some msg => .error msg
    | none =>
      let newTiles := applyPlacements game.tiles tps
      let minRow := minimumOf (tps.map (·.row))
      let maxRow := maximumOf (tps.map (·.row))
      let minCol := minimumOf (tps.map (·.col))
      let maxCol := maximumOf (tps.map (·.col))
      match (if game.checkTilePlacement then
          placementError game.tiles newTiles tps minRow maxRow minCol maxCol
        else none) with
      | some msg => .error msg
      | none =>
        match scoreWords game.squares game.tileSet game.tiles newTiles
            (newWordRects newTiles tps) with
        | .error msg => .error msg
        | .ok (words, basePoints) =>
          let points : Int := basePoints + (if tps.length = 7 then 50 else 0)
          let invalidWords := words.filter fun w => !(validWords.contains w)
          if game.useDictionary && !invalidWords.isEmpty then
            .error (dictMsg invalidWords)
          else
            .ok { game with
                    tiles := newTiles
                    moves := game.moves ++ [{ tiles := tps, words := words, points := points }] }

/-- Source `undo` (lines 238–253). -/
def undo (game : Game) : Game :=
  if game.moves.length = 0 then
    game
  else
    { game with
        tiles := erasePlacements game.tiles (game.moves.getLastD ⟨[], [], 0⟩).tiles
        moves := game.moves.dropLast }

/-- Occupancy at index `k` of an occupancy list; out of range counts as
unoccupied (this also covers the sentinel past the end of a row). -/
def occAt (occs : List Bool) (k : Nat) : Bool :=
  occs.getD k false

/-- Predicate: `(a, b)` spans a maximal run of consecutive occupied cells of length at
least 2: every index in `[a, b]` is occupied, the run cannot be extended to
the left or to the right, and it has at least two cells. -/
def IsMaxRun (occs : List Bool) (a b : Nat) : Prop :=
  a < b ∧ (∀ k ∈ List.range' a (b + 1 - a), occAt occs k = true) ∧
    (a = 0 ∨ occAt occs (a - 1) = false) ∧ occAt occs (b + 1) = false

instance (occs : List Bool) (a b : Nat) : Decidable (IsMaxRun occs a b) := by
  unfold IsMaxRun; infer_instance

/-- The invariant the scanner maintains about its pending `range` at
position `j`. -/
def ScanInv (occs : List Bool) (j : Nat) : Option (Nat × Nat) → Prop
  | none => j = 0 ∨ occAt occs (j - 1) = false
  | some (a, b) => b + 1 = j ∧ a ≤ b ∧
      (∀ k ∈ List.range' a (b + 1 - a), occAt occs k = true) ∧
      (a = 0 ∨ occAt occs (a - 1) = false)

/-- All rows have the length of row 0 (the source's grids are built
rectangular; the column scan at line 173 relies on this). -/
def IsRectangular (g : Grid) : Prop :=
  ∀ i < g.length, rowLen g i = rowLen g 0

instance (g : Grid) : Decidable (IsRectangular g) := by
  unfold IsRectangular; infer_instance

/-- Following the spec's words (§4.3): one cell's letter contribution is the
tile's point value times the cell's letter multiplier, the multiplier
applying only if the cell was empty before the move. -/
def specCellScore (squares : List (List Square)) (ts : TileSet)
    (oldTiles newTiles : Grid) (c : Nat × Nat) : Int :=
  match getCell newTiles c.1 c.2 with
  | none => 0
  | some tile =>
    (if getCell oldTiles c.1 c.2 = none then (squareAt squares c.1 c.2).letterMultiplier
     else 1) * ts.score tile.tile

/-- Following the spec's words (§4.3): the word multiplier is the product of
the word multipliers of the cells that were empty before the move
(pre-existing cells contribute a factor of 1). -/
def specWordMult (squares : List (List Square)) (oldTiles : Grid)
    (cells : List (Nat × Nat)) : Int :=
  ((cells.filter fun c => getCell oldTiles c.1 c.2 = none).map
    fun c => (squareAt squares c.1 c.2).wordMultiplier).prod

/-- Following the spec's words (§4.3): a word's score is the sum of its
cells' letter contributions times its word multiplier. -/
def specWordScore (squares : List (List Square)) (ts : TileSet)
    (oldTiles newTiles : Grid) (r : Rect) : Int :=
  ((rectCells r).map (specCellScore squares ts oldTiles newTiles)).sum *
    specWordMult squares oldTiles (rectCells r)

/-- The displayed letter at a cell (only evaluated at occupied cells). -/
def letterAt (newTiles : Grid) (c : Nat × Nat) : String :=
  ((getCell newTiles c.1 c.2).getD ⟨"", ""⟩).letter

def msgTag (s : String) : List Char :=
  s.data.take 3

/-- Recognizer for `makeMove` results that are the defensive internal error of line 200
(recognized by the first three characters of the message, which separate it
from every other message `makeMove` builds). -/
def isInternalError : Except String Game → Bool
  | .error s => decide (s.data.take 3 = ['I', 'n', 't'])
  | .ok _ => false

/-- A previously occupied cell directly adjacent (above/below/left/right,
within the grid bounds the source checks) to the placements' bounding
rectangle.  This is the spec-side reading of the `touching` test, phrased
over the pre-move grid. -/
def AdjacentOccupied (oldTiles : Grid) (minRow maxRow minCol maxCol : Nat) : Prop :=
  (∃ i ∈ List.range' minRow (maxRow + 1 - minRow),
    (1 ≤ minCol ∧ (getCell oldTiles i (minCol - 1)).isSome = true) ∨
    (maxCol + 1 < rowLen oldTiles i ∧ (getCell oldTiles i (maxCol + 1)).isSome = true)) ∨
  (∃ j ∈ List.range' minCol (maxCol + 1 - minCol),
    (1 ≤ minRow ∧ (getCell oldTiles (minRow - 1) j).isSome = true) ∨
    (maxRow + 1 < oldTiles.length ∧ (getCell oldTiles (maxRow + 1) j).isSome = true))

instance (oldTiles : Grid) (minRow maxRow minCol maxCol : Nat) :
    Decidable (AdjacentOccupied oldTiles minRow maxRow minCol maxCol) := by
  unfold AdjacentOccupied; infer_instance

/-! ### A reference store, to state atomicity

JavaScript grids are mutable array objects.  To state that a rejected move
leaves the input `Game` untouched, the tile grids are placed in an explicit
store of array objects addressed by reference, and `makeMove` is repeated
over it with its writes made explicit: lines 106–109 allocate a fresh copy
of `game.tiles` and write every placement into the copy; all later reads of
`game.tiles` (lines 152 and 205–208) go through the store as well, after
those writes. -/

structure Store where
  grids : List Grid
  deriving DecidableEq, Repr

def Store.read (σ : Store) (ref : Nat) : Grid :=
  σ.grids.getD ref []

def Store.alloc (σ : Store) (g : Grid) : Store × Nat :=
  ({ grids := σ.grids ++ [g] }, σ.grids.length)

def Store.write (σ : Store) (ref r c : Nat) (v : Option PlacedTile) : Store :=
  { grids := σ.grids.set ref (setCell (σ.read ref) r c v) }

/-- The write loop of lines 107–109, against the store. -/
def writePlacements (σ : Store) (ref : Nat) (tps : List TilePlacement) : Store :=
  tps.foldl (fun σ' p => σ'.write ref p.row p.col (some p.tile)) σ

/-- A `Game` whose tile grid lives in the store. -/
structure GameRef where
  useDictionary : Bool
  checkTilePlacement : Bool
  squares : List (List Square)
  tiles : Nat
  tileSet : TileSet
  players : List Player
  moves : List Move
  deriving DecidableEq, Repr

/-- The `Game` value a `GameRef` denotes under a store. -/
def realize (σ : Store) (g : GameRef) : Game :=
  ⟨g.useDictionary, g.checkTilePlacement, g.squares, σ.read g.tiles, g.tileSet,
    g.players, g.moves⟩

/-- Source `makeMove` (lines 89–236) with the grid mutation explicit.  Identical to
`makeMove` except that the copy of `game.tiles` is a fresh store allocation,
the placement writes mutate that allocation, and grid reads go through the
store. -/
def makeMoveRef (validWords : List String) (σ : Store) (game : GameRef)
    (tps : List TilePlacement) : Except String GameRef × Store :=
  if tps.length = 0 then
    (.ok { game with moves := game.moves ++ [⟨[], [], 0⟩] }, σ)
  else
    match findInvalidTile game.tileSet tps with
    | some msg => (.error msg, σ)
    | none =>
      let alloc := σ.alloc (σ.read game.tiles)
      let σ2 := writePlacements alloc.1 alloc.2 tps
      let newTiles := σ2.read alloc.2
      let oldTiles := σ2.read game.tiles
      let minRow := minimumOf (tps.map (·.row))
      let maxRow := maximumOf (tps.map (·.row))
      let minCol := minimumOf (tps.map (·.col))
      let maxCol := maximumOf (tps.map (·.col))
      match (if game.checkTilePlacement then
          placementError oldTiles newTiles tps minRow maxRow minCol maxCol
        else none) with
      | some msg => (.error msg, σ2)
      | none =>
        match scoreWords game.squares game.tileSet oldTiles newTiles
            (newWordRects newTiles tps) with
        | .error msg => (.error msg, σ2)
        | .ok (words, basePoints) =>
          let points : Int := basePoints + (if tps.length = 7 then 50 else 0)
          let invalidWords := words.filter fun w => !(validWords.contains w)
          if game.useDictionary && !invalidWords.isEmpty then
            (.error (dictMsg invalidWords), σ2)
          else
            (.ok { game with
                     tiles := alloc.2
                     moves := game.moves ++ [⟨tps, words, points⟩] }, σ2)

/-! ### Concrete games used by witnesses and counterexamples -/

def plainSquares (h w : Nat) : List (List Square) :=
  List.replicate h (List.replicate w ⟨1, 1⟩)

def emptyTiles (h w : Nat) : Grid :=
  List.replicate h (List.replicate w none)

/-- A normal tile: scoring key and displayed letter agree. -/
def pt (s : String) : PlacedTile :=
  ⟨s, s⟩

def demoTileSet : TileSet :=
  ⟨[(" ", 0), ("a", 1), ("b", 3), ("c", 3), ("t", 1)]⟩

/-- A 2×3 board with one pre-existing `a` at (0,1). -/
def touchGame : Game :=
  { useDictionary := false, checkTilePlacement := true,
    squares := plainSquares 2 3,
    tiles := [[none, some (pt "a"), none], [none, none, none]],
    tileSet := demoTileSet, players := [], moves := [] }

/-- Play `c` and `t` around the existing `a`, forming `cat`. -/
def touchMove : List TilePlacement :=
  [⟨pt "c", 0, 0⟩, ⟨pt "t", 0, 2⟩]

/-- A 3×3 board with a pre-existing vertical `a`/`b` pair in column 1. -/
def crossGame : Game :=
  { useDictionary := false, checkTilePlacement := true,
    squares := plainSquares 3 3,
    tiles := [[none, some (pt "a"), none], [none, some (pt "b"), none],
      [none, none, none]],
    tileSet := demoTileSet, players := [], moves := [] }

def crossMove : List TilePlacement :=
  [⟨pt "c", 0, 0⟩, ⟨pt "t", 0, 2⟩]

/-- A 1×1 board with an empty cell and no rule checking. -/
def tinyGame : Game :=
  { useDictionary := false, checkTilePlacement := false,
    squares := plainSquares 1 1, tiles := emptyTiles 1 1,
    tileSet := demoTileSet, players := [], moves := [] }

/-- A 1×2 board whose tile set scores the uppercase letters `A` and `B`. -/
def upperGame : Game :=
  { useDictionary := true, checkTilePlacement := true,
    squares := plainSquares 1 2, tiles := emptyTiles 1 2,
    tileSet := ⟨[("A", 1), ("B", 1)]⟩, players := [], moves := [] }

def upperMove : List TilePlacement :=
  [⟨⟨"A", "A"⟩, 0, 0⟩, ⟨⟨"B", "B"⟩, 0, 1⟩]

/-- A 3×3 board with pre-existing `a` tiles at (0,0) and (0,1). -/
def overlapGame : Game :=
  { useDictionary := false, checkTilePlacement := true,
    squares := plainSquares 3 3,
    tiles := [[some (pt "a"), some (pt "a"), none], [none, none, none],
      [none, none, none]],
    tileSet := demoTileSet, players := [], moves := [] }

/-- Place a `b` on top of the occupied cell (0,0). -/
def overlapMove : List TilePlacement :=
  [⟨pt "b", 0, 0⟩]

/-- The state after `overlapMove`: the `b` replaces the `a`. -/
def overlapGame' : Game :=
  { overlapGame with
      tiles := [[some (pt "b"), some (pt "a"), none], [none, none, none],
        [none, none, none]]
      moves := [⟨overlapMove, ["ba"], 4⟩] }

/-- A 1×3 board whose first square is a triple-word square (spec scenario 1). -/
def tripleGame : Game :=
  { useDictionary := false, checkTilePlacement := true,
    squares := [[⟨1, 3⟩, ⟨1, 1⟩, ⟨1, 1⟩]],
    tiles := emptyTiles 1 3,
    tileSet := demoTileSet, players := [], moves := [] }

def tripleMove : List TilePlacement :=
  [⟨pt "c", 0, 0⟩, ⟨pt "a", 0, 1⟩, ⟨pt "t", 0, 2⟩]

/-- The state after `tripleMove`: `cat` for (3+1+1)×3 = 15 points. -/
def tripleGame' : Game :=
  { tripleGame with
      tiles := [[some (pt "c"), some (pt "a"), some (pt "t")]]
      moves := [⟨tripleMove, ["cat"], 15⟩] }

/-- Store holding `touchGame`'s grid as object 0. -/
def touchStore : Store :=
  ⟨[touchGame.tiles]⟩

/-- Variant of `touchGame` with its grid referring to store object 0. -/
def touchGameRef : GameRef :=
  { useDictionary := false, checkTilePlacement := true,
    squares := plainSquares 2 3, tiles := 0,
    tileSet := demoTileSet, players := [], moves := [] }

/-! ### Lemmas and theorems -/

theorem length_setCell (g : Grid) (r c : Nat) (v : Option PlacedTile) :
    (setCell g r c v).length = g.length := by
  simp [setCell]

theorem getRow_setCell (g : Grid) (r c : Nat) (v : Option PlacedTile) (r' : Nat) :
    (setCell g r c v).getD r' [] =
      if r = r' ∧ r < g.length then (g.getD r []).set c v else g.getD r' [] := by
  unfold setCell
  by_cases h : r = r'
  · subst h
    by_cases hr : r < g.length
    · simp [List.getD_eq_getElem?_getD, List.getElem?_set_self hr, hr]
    · rw [List.set_eq_of_length_le (Nat.le_of_not_lt hr)]
      simp [hr]
  · simp [List.getD_eq_getElem?_getD, List.getElem?_set_ne h, h]

theorem rowLen_setCell (g : Grid) (r c : Nat) (v : Option PlacedTile) (r' : Nat) :
    rowLen (setCell g r c v) r' = rowLen g r' := by
  unfold rowLen
  rw [getRow_setCell]
  by_cases h : r = r' ∧ r < g.length
  · rw [if_pos h, List.length_set, h.1]
  · rw [if_neg h]

theorem getCell_setCell_same (g : Grid) (r c : Nat) (v : Option PlacedTile)
    (hr : r < g.length) (hc : c < rowLen g r) :
    getCell (setCell g r c v) r c = v := by
  unfold getCell
  rw [getRow_setCell, if_pos ⟨rfl, hr⟩]
  simp [List.getD_eq_getElem?_getD, List.getElem?_set_self (by simpa [rowLen] using hc)]

theorem getCell_setCell_ne (g : Grid) (r c : Nat) (v : Option PlacedTile)
    (r' c' : Nat) (h : ¬(r = r' ∧ c = c')) :
    getCell (setCell g r c v) r' c' = getCell g r' c' := by
  unfold getCell
  rw [getRow_setCell]
  by_cases hr : r = r' ∧ r < g.length
  · rw [if_pos hr]
    have hc : c ≠ c' := fun hcc => h ⟨hr.1, hcc⟩
    simp [List.getD_eq_getElem?_getD, List.getElem?_set_ne hc, hr.1]
  · rw [if_neg hr]

theorem length_applyPlacements (g : Grid) (tps : List TilePlacement) :
    (applyPlacements g tps).length = g.length := by
  induction tps generalizing g with
  | nil => rfl
  | cons p rest ih => simpa [applyPlacements, List.foldl_cons] using
      (ih (setCell g p.row p.col (some p.tile))).trans (length_setCell ..)

theorem rowLen_applyPlacements (g : Grid) (tps : List TilePlacement) (r : Nat) :
    rowLen (applyPlacements g tps) r = rowLen g r := by
  induction tps generalizing g with
  | nil => rfl
  | cons p rest ih => simpa [applyPlacements, List.foldl_cons] using
      (ih (setCell g p.row p.col (some p.tile))).trans (rowLen_setCell ..)

theorem getCell_applyPlacements_not_target (g : Grid) (tps : List TilePlacement)
    (r c : Nat) (h : ∀ p ∈ tps, ¬(p.row = r ∧ p.col = c)) :
    getCell (applyPlacements g tps) r c = getCell g r c := by
  induction tps generalizing g with
  | nil => rfl
  | cons p rest ih =>
    have h1 := h p (List.mem_cons_self ..)
    calc getCell (applyPlacements (setCell g p.row p.col (some p.tile)) rest) r c
        = getCell (setCell g p.row p.col (some p.tile)) r c :=
          ih _ (fun q hq => h q (List.mem_cons_of_mem _ hq))
      _ = getCell g r c := getCell_setCell_ne _ _ _ _ _ _ h1

theorem getCell_applyPlacements_target (g : Grid) (tps : List TilePlacement)
    (r c : Nat) (hr : r < g.length) (hc : c < rowLen g r)
    (h : ∃ p ∈ tps, p.row = r ∧ p.col = c) :
    (getCell (applyPlacements g tps) r c).isSome = true := by
  induction tps generalizing g with
  | nil => exact absurd h (by simp)
  | cons p rest ih =>
    by_cases hrest : ∃ q ∈ rest, q.row = r ∧ q.col = c
    · exact ih _ (by simpa [length_setCell]) (by simpa [rowLen_setCell]) hrest
    · obtain ⟨q, hq, hqr, hqc⟩ := h
      have hq' : q = p := by
        rcases List.mem_cons.1 hq with h' | h'
        · exact h'
        · exact absurd ⟨q, h', hqr, hqc⟩ hrest
      subst hq'; subst hqr; subst hqc
      have : getCell (applyPlacements (setCell g q.row q.col (some q.tile)) rest) q.row q.col
          = getCell (setCell g q.row q.col (some q.tile)) q.row q.col :=
        getCell_applyPlacements_not_target _ _ _ _
          (fun p hp hpc => hrest ⟨p, hp, hpc⟩)
      show (getCell (applyPlacements (setCell g q.row q.col (some q.tile)) rest)
        q.row q.col).isSome = true
      rw [this, getCell_setCell_same _ _ _ _ hr hc]
      rfl

theorem length_erasePlacements (g : Grid) (tps : List TilePlacement) :
    (erasePlacements g tps).length = g.length := by
  induction tps generalizing g with
  | nil => rfl
  | cons p rest ih => simpa [erasePlacements, List.foldl_cons] using
      (ih (setCell g p.row p.col none)).trans (length_setCell ..)

theorem rowLen_erasePlacements (g : Grid) (tps : List TilePlacement) (r : Nat) :
    rowLen (erasePlacements g tps) r = rowLen g r := by
  induction tps generalizing g with
  | nil => rfl
  | cons p rest ih => simpa [erasePlacements, List.foldl_cons] using
      (ih (setCell g p.row p.col none)).trans (rowLen_setCell ..)

theorem getCell_erasePlacements_not_target (g : Grid) (tps : List TilePlacement)
    (r c : Nat) (h : ∀ p ∈ tps, ¬(p.row = r ∧ p.col = c)) :
    getCell (erasePlacements g tps) r c = getCell g r c := by
  induction tps generalizing g with
  | nil => rfl
  | cons p rest ih =>
    have h1 := h p (List.mem_cons_self ..)
    calc getCell (erasePlacements (setCell g p.row p.col none) rest) r c
        = getCell (setCell g p.row p.col none) r c :=
          ih _ (fun q hq => h q (List.mem_cons_of_mem _ hq))
      _ = getCell g r c := getCell_setCell_ne _ _ _ _ _ _ h1

theorem getCell_erasePlacements_target (g : Grid) (tps : List TilePlacement)
    (r c : Nat) (hr : r < g.length) (hc : c < rowLen g r)
    (h : ∃ p ∈ tps, p.row = r ∧ p.col = c) :
    getCell (erasePlacements g tps) r c = none := by
  induction tps generalizing g with
  | nil => exact absurd h (by simp)
  | cons p rest ih =>
    by_cases hrest : ∃ q ∈ rest, q.row = r ∧ q.col = c
    · exact ih _ (by simpa [length_setCell]) (by simpa [rowLen_setCell]) hrest
    · obtain ⟨q, hq, hqr, hqc⟩ := h
      have hq' : q = p := by
        rcases List.mem_cons.1 hq with h' | h'
        · exact h'
        · exact absurd ⟨q, h', hqr, hqc⟩ hrest
      subst hq'; subst hqr; subst hqc
      calc getCell (erasePlacements (setCell g q.row q.col none) rest) q.row q.col
          = getCell (setCell g q.row q.col none) q.row q.col :=
            getCell_erasePlacements_not_target _ _ _ _
              (fun p hp hpc => hrest ⟨p, hp, hpc⟩)
        _ = none := getCell_setCell_same _ _ _ _ hr hc

/-- Grids with the same shape and the same cells are equal. -/
theorem grid_ext (g g' : Grid) (hlen : g.length = g'.length)
    (hrow : ∀ r, rowLen g r = rowLen g' r)
    (hcell : ∀ r c, getCell g r c = getCell g' r c) : g = g' := by
  apply List.ext_getElem?
  intro r
  by_cases hr : r < g.length
  · have hr' : r < g'.length := hlen ▸ hr
    rw [List.getElem?_eq_getElem hr, List.getElem?_eq_getElem hr']
    congr 1
    apply List.ext_getElem?
    intro c
    have hrowr : (g.getD r []).length = (g'.getD r []).length := hrow r
    have hgr : g.getD r [] = g[r] := by
      simp [List.getD_eq_getElem?_getD, List.getElem?_eq_getElem hr]
    have hgr' : g'.getD r [] = g'[r] := by
      simp [List.getD_eq_getElem?_getD, List.getElem?_eq_getElem hr']
    by_cases hc : c < g[r].length
    · have hc' : c < g'[r].length := by
        rw [hgr, hgr'] at hrowr; exact hrowr ▸ hc
      rw [List.getElem?_eq_getElem hc, List.getElem?_eq_getElem hc']
      have := hcell r c
      unfold getCell at this
      rw [hgr, hgr'] at this
      simpa [List.getD_eq_getElem?_getD, List.getElem?_eq_getElem hc,
        List.getElem?_eq_getElem hc'] using this
    · have hc' : ¬ c < g'[r].length := by
        rw [hgr, hgr'] at hrowr; exact hrowr ▸ hc
      rw [List.getElem?_eq_none (Nat.le_of_not_lt hc),
        List.getElem?_eq_none (Nat.le_of_not_lt hc')]
  · have hr' : ¬ r < g'.length := hlen ▸ hr
    rw [List.getElem?_eq_none (Nat.le_of_not_lt hr),
      List.getElem?_eq_none (Nat.le_of_not_lt hr')]

theorem foldl_min_le_init (l : List Nat) (a : Nat) : l.foldl Nat.min a ≤ a := by
  induction l generalizing a with
  | nil => exact Nat.le_refl a
  | cons x xs ih => exact Nat.le_trans (ih (Nat.min a x)) (Nat.min_le_left a x)

theorem foldl_min_le_mem {l : List Nat} {x : Nat} (h : x ∈ l) (a : Nat) :
    l.foldl Nat.min a ≤ x := by
  induction l generalizing a with
  | nil => cases h
  | cons y ys ih =>
    rcases List.mem_cons.1 h with h' | h'
    · subst h'
      exact Nat.le_trans (foldl_min_le_init ys (Nat.min a x)) (Nat.min_le_right a x)
    · exact ih h' (Nat.min a y)

theorem init_le_foldl_max (l : List Nat) (a : Nat) : a ≤ l.foldl Nat.max a := by
  induction l generalizing a with
  | nil => exact Nat.le_refl a
  | cons x xs ih => exact Nat.le_trans (Nat.le_max_left a x) (ih (Nat.max a x))

theorem mem_le_foldl_max {l : List Nat} {x : Nat} (h : x ∈ l) (a : Nat) :
    x ≤ l.foldl Nat.max a := by
  induction l generalizing a with
  | nil => cases h
  | cons y ys ih =>
    rcases List.mem_cons.1 h with h' | h'
    · subst h'
      exact Nat.le_trans (Nat.le_max_right a x) (init_le_foldl_max ys (Nat.max a x))
    · exact ih h' (Nat.max a y)

theorem minimumOf_le {l : List Nat} {x : Nat} (h : x ∈ l) : minimumOf l ≤ x := by
  cases l with
  | nil => cases h
  | cons y ys =>
    rcases List.mem_cons.1 h with h' | h'
    · subst h'; exact foldl_min_le_init ys x
    · exact foldl_min_le_mem h' y

theorem le_maximumOf {l : List Nat} {x : Nat} (h : x ∈ l) : x ≤ maximumOf l := by
  cases l with
  | nil => cases h
  | cons y ys =>
    rcases List.mem_cons.1 h with h' | h'
    · subst h'; exact init_le_foldl_max ys x
    · exact mem_le_foldl_max h' y

theorem occAt_lt {occs : List Bool} {k : Nat} (h : occAt occs k = true) :
    k < occs.length := by
  by_contra hk
  rw [occAt, List.getD_eq_getElem?_getD, List.getElem?_eq_none (Nat.le_of_not_lt hk)] at h
  cases h

theorem occAt_eq_false_of_le {occs : List Bool} {k : Nat} (h : occs.length ≤ k) :
    occAt occs k = false := by
  rw [occAt, List.getD_eq_getElem?_getD, List.getElem?_eq_none h]
  rfl

theorem occAt_eq_getElem {occs : List Bool} {j : Nat} (h : j < occs.length) :
    occAt occs j = occs[j] := by
  rw [occAt, List.getD_eq_getElem?_getD, List.getElem?_eq_getElem h]
  rfl

theorem mem_run_range {a b k : Nat} (hab : a ≤ b) :
    k ∈ List.range' a (b + 1 - a) ↔ a ≤ k ∧ k ≤ b := by
  rw [List.mem_range'_1]
  omega

/-- Two left-maximal all-occupied spans ending at the same index start at the
same index. -/
theorem maxrun_left_unique (occs : List Bool) {a x b : Nat}
    (hab : a ≤ b) (hxb : x ≤ b)
    (ha1 : ∀ k ∈ List.range' a (b + 1 - a), occAt occs k = true)
    (ha2 : a = 0 ∨ occAt occs (a - 1) = false)
    (hx1 : ∀ k ∈ List.range' x (b + 1 - x), occAt occs k = true)
    (hx2 : x = 0 ∨ occAt occs (x - 1) = false) :
    a = x := by
  rcases Nat.lt_trichotomy a x with h | h | h
  · -- a < x: the cell x - 1 lies in [a, b], so it is occupied, contradicting hx2
    have hx0 : x ≠ 0 := by omega
    have : occAt occs (x - 1) = true :=
      ha1 _ ((mem_run_range hab).2 (by omega))
    rcases hx2 with h0 | h0
    · exact absurd h0 hx0
    · rw [this] at h0; cases h0
  · exact h
  · have ha0 : a ≠ 0 := by omega
    have : occAt occs (a - 1) = true :=
      hx1 _ ((mem_run_range hxb).2 (by omega))
    rcases ha2 with h0 | h0
    · exact absurd h0 ha0
    · rw [this] at h0; cases h0

theorem mem_emitRun {x y a b : Nat} :
    (x, y) ∈ emitRun (some (a, b)) ↔ a < b ∧ x = a ∧ y = b := by
  show (x, y) ∈ (if 0 < b - a then [(a, b)] else []) ↔ _
  split
  · next h => simp only [List.mem_singleton, Prod.mk.injEq]; omega
  · next h => simp only [List.not_mem_nil, false_iff]; omega

/-- Main characterization of the scanner, by induction on the remaining
suffix: under the invariant, the emitted pairs are exactly the maximal runs
of length ≥ 2 that end at or after position `j - 1`. -/
theorem scanRuns_mem_aux (occs : List Bool) :
    ∀ (n j : Nat) (r : Option (Nat × Nat)), occs.length = j + n → ScanInv occs j r →
      ∀ x y, ((x, y) ∈ scanRuns (occs.drop j) j r ↔ IsMaxRun occs x y ∧ j ≤ y + 1) := by
  intro n
  induction n with
  | zero =>
    intro j r hlen hinv x y
    have hdrop : occs.drop j = [] := by
      rw [(by omega : j = occs.length), List.drop_length]
    rw [hdrop]
    show (x, y) ∈ emitRun r ↔ _
    match r with
    | none =>
      simp only [emitRun, List.not_mem_nil, false_iff]
      rintro ⟨⟨hxy, hcells, _, _⟩, hjy⟩
      have hy : occAt occs y = true :=
        hcells _ ((mem_run_range (by omega)).2 (by omega))
      have hylt : y < occs.length := occAt_lt hy
      -- so y + 1 = j and y = j - 1; the invariant says that cell is empty
      rcases hinv with h0 | h0
      · omega
      · have : y = j - 1 := by omega
        rw [this] at hy; rw [hy] at h0; cases h0
    | some (a, b) =>
      obtain ⟨hbj, hab, hcells, hleft⟩ := hinv
      rw [mem_emitRun]
      constructor
      · rintro ⟨hlt, rfl, rfl⟩
        refine ⟨⟨hlt, hcells, hleft, ?_⟩, by omega⟩
        exact occAt_eq_false_of_le (by omega)
      · rintro ⟨⟨hxy, hcellsx, hleftx, _⟩, hjy⟩
        have hy : occAt occs y = true :=
          hcellsx _ ((mem_run_range (by omega)).2 (by omega))
        have hylt : y < occs.length := occAt_lt hy
        have hyb : y = b := by omega
        subst hyb
        have hax : a = x :=
          maxrun_left_unique occs hab (by omega) hcells hleft hcellsx hleftx
        omega
  | succ n ih =>
    intro j r hlen hinv x y
    have hj : j < occs.length := by omega
    have hdrop : occs.drop j = occs[j] :: occs.drop (j + 1) :=
      List.drop_eq_getElem_cons hj
    have hoccj : occAt occs j = occs[j] := occAt_eq_getElem hj
    rw [hdrop]
    show (x, y) ∈ (if occs[j] then scanRuns (occs.drop (j + 1)) (j + 1) (extendRun j r)
      else emitRun r ++ scanRuns (occs.drop (j + 1)) (j + 1) none) ↔ _
    by_cases hc : occs[j] = true
    · -- occupied cell: extend the pending run
      rw [if_pos hc]
      have hoccj' : occAt occs j = true := by rw [hoccj, hc]
      have hinv' : ScanInv occs (j + 1) (extendRun j r) := by
        match r with
        | none =>
          refine ⟨rfl, Nat.le_refl j, ?_, ?_⟩
          · intro k hk
            have := (mem_run_range (Nat.le_refl j)).1 hk
            have : k = j := by omega
            rw [this]; exact hoccj'
          · simpa using hinv
        | some (a, b) =>
          obtain ⟨hbj, hab, hcells, hleft⟩ := hinv
          refine ⟨rfl, by omega, ?_, hleft⟩
          intro k hk
          have hk' := (mem_run_range (by omega : a ≤ j)).1 hk
          by_cases hkb : k ≤ b
          · exact hcells _ ((mem_run_range hab).2 ⟨hk'.1, hkb⟩)
          · have : k = j := by omega
            rw [this]; exact hoccj'
      rw [ih (j + 1) (extendRun j r) (by omega) hinv' x y]
      constructor
      · rintro ⟨hmax, hy⟩; exact ⟨hmax, by omega⟩
      · rintro ⟨hmax, hy⟩
        refine ⟨hmax, ?_⟩
        by_contra hlt
        have hyj : y + 1 = j := by omega
        have := hmax.2.2.2
        rw [hyj] at this
        rw [this] at hoccj'
        cases hoccj'
    · -- empty cell: emit the pending run and restart
      rw [if_neg hc]
      have hc' : occs[j] = false := by
        cases h : occs[j] with
        | true => exact absurd h hc
        | false => rfl
      have hoccj' : occAt occs j = false := by rw [hoccj, hc']
      have hinv' : ScanInv occs (j + 1) none := Or.inr (by simpa using hoccj')
      rw [List.mem_append, ih (j + 1) none (by omega) hinv' x y]
      match r with
      | none =>
        show (x, y) ∈ ([] : List (Nat × Nat)) ∨ _ ↔ _
        simp only [List.not_mem_nil, false_or]
        constructor
        · rintro ⟨hmax, hy⟩; exact ⟨hmax, by omega⟩
        · rintro ⟨hmax, hy⟩
          refine ⟨hmax, ?_⟩
          obtain ⟨hxy, hcells', _, _⟩ := hmax
          by_contra hlt
          have hyj : y + 1 = j := by omega
          have hycell : occAt occs y = true :=
            hcells' _ ((mem_run_range (by omega)).2 (by omega))
          rcases hinv with h0 | h0
          · omega
          · have : y = j - 1 := by omega
            rw [this] at hycell; rw [hycell] at h0; cases h0
      | some (a, b) =>
        obtain ⟨hbj, hab, hcells, hleft⟩ := hinv
        rw [mem_emitRun]
        constructor
        · rintro (⟨hlt, rfl, rfl⟩ | ⟨hmax, hy⟩)
          · refine ⟨⟨hlt, hcells, hleft, ?_⟩, by omega⟩
            rw [hbj]; exact hoccj'
          · exact ⟨hmax, by omega⟩
        · rintro ⟨hmax, hy⟩
          by_cases hyj : j ≤ y
          · exact Or.inr ⟨hmax, by omega⟩
          · left
            obtain ⟨hxy, hcellsx, hleftx, _⟩ := hmax
            have hyb : y = b := by omega
            subst hyb
            have hax : a = x :=
              maxrun_left_unique occs hab (by omega) hcells hleft hcellsx hleftx
            exact ⟨by omega, hax.symm, rfl⟩

/-- The scanner started on a full occupancy list emits exactly its maximal
runs of length ≥ 2. -/
theorem scanRuns_mem (occs : List Bool) (x y : Nat) :
    (x, y) ∈ scanRuns occs 0 none ↔ IsMaxRun occs x y := by
  have := scanRuns_mem_aux occs occs.length 0 none (by omega) (Or.inl rfl) x y
  rw [List.drop_zero] at this
  rw [this]
  constructor
  · exact fun h => h.1
  · exact fun h => ⟨h, by omega⟩

theorem occAt_rowOcc (g : Grid) (i k : Nat) :
    occAt (rowOcc g i) k = (getCell g i k).isSome := by
  unfold occAt rowOcc getCell
  rw [List.getD_eq_getElem?_getD ((g.getD i []).map Option.isSome), List.getElem?_map,
    List.getD_eq_getElem?_getD (g.getD i [])]
  cases (g.getD i [])[k]? with
  | none => rfl
  | some t => rfl

theorem occAt_colOcc (g : Grid) (j i : Nat) :
    occAt (colOcc g j) i = (getCell g i j).isSome := by
  unfold occAt colOcc getCell
  rw [List.getD_eq_getElem?_getD (g.map fun row => (row.getD j none).isSome),
    List.getElem?_map, List.getD_eq_getElem?_getD g]
  cases g[i]? with
  | none => rfl
  | some row => rfl

theorem getCell_isSome_bounds {g : Grid} {r c : Nat}
    (h : (getCell g r c).isSome = true) : r < g.length ∧ c < rowLen g r := by
  constructor
  · by_contra hr
    rw [getCell, List.getD_eq_getElem?_getD g,
      List.getElem?_eq_none (Nat.le_of_not_lt hr)] at h
    cases h
  · by_contra hc
    rw [getCell, List.getD_eq_getElem?_getD (g.getD r []),
      List.getElem?_eq_none (Nat.le_of_not_lt hc)] at h
    cases h

/-- Soundness half of the extraction: each emitted rectangle is a maximal
row run or a maximal column run. -/
theorem mem_allWordRects_cases {g : Grid} {r : Rect} (h : r ∈ allWordRects g) :
    (r.minRow = r.maxRow ∧ IsMaxRun (rowOcc g r.minRow) r.minCol r.maxCol) ∨
    (r.minCol = r.maxCol ∧ IsMaxRun (colOcc g r.minCol) r.minRow r.maxRow) := by
  unfold allWordRects at h
  rcases List.mem_append.1 h with h | h
  · left
    obtain ⟨i, _, hr⟩ := List.mem_flatMap.1 h
    obtain ⟨ab, hab, hr⟩ := List.mem_map.1 hr
    obtain ⟨a, b⟩ := ab
    cases hr
    exact ⟨rfl, (scanRuns_mem _ a b).1 hab⟩
  · right
    obtain ⟨j, _, hr⟩ := List.mem_flatMap.1 h
    obtain ⟨ab, hab, hr⟩ := List.mem_map.1 hr
    obtain ⟨a, b⟩ := ab
    cases hr
    exact ⟨rfl, (scanRuns_mem _ a b).1 hab⟩

/-- Completeness: on a rectangular grid the emitted rectangles are exactly
the maximal runs of length ≥ 2, horizontal and vertical. -/
theorem mem_allWordRects {g : Grid} (hrect : IsRectangular g) (r : Rect) :
    r ∈ allWordRects g ↔
      (r.minRow = r.maxRow ∧ IsMaxRun (rowOcc g r.minRow) r.minCol r.maxCol) ∨
      (r.minCol = r.maxCol ∧ IsMaxRun (colOcc g r.minCol) r.minRow r.maxRow) := by
  constructor
  · exact mem_allWordRects_cases
  · intro h
    unfold allWordRects
    rw [List.mem_append]
    rcases h with ⟨hrow, hmax⟩ | ⟨hcol, hmax⟩
    · left
      rw [List.mem_flatMap]
      have hlt := hmax.1
      refine ⟨r.minRow, ?_, ?_⟩
      · -- the run contains an occupied cell of that row, so the row exists
        have hcell : occAt (rowOcc g r.minRow) r.minCol = true :=
          hmax.2.1 _ ((mem_run_range (by omega : r.minCol ≤ r.maxCol)).2
            ⟨Nat.le_refl _, by omega⟩)
        rw [occAt_rowOcc] at hcell
        exact List.mem_range.2 (getCell_isSome_bounds hcell).1
      · rw [List.mem_map]
        refine ⟨(r.minCol, r.maxCol), (scanRuns_mem _ _ _).2 hmax, ?_⟩
        obtain ⟨a0, b0, c0, d0⟩ := r
        cases hrow
        rfl
    · right
      rw [List.mem_flatMap]
      have hlt := hmax.1
      refine ⟨r.minCol, ?_, ?_⟩
      · have hcell : occAt (colOcc g r.minCol) r.minRow = true :=
          hmax.2.1 _ ((mem_run_range (by omega : r.minRow ≤ r.maxRow)).2
            ⟨Nat.le_refl _, by omega⟩)
        rw [occAt_colOcc] at hcell
        have hb := getCell_isSome_bounds hcell
        rw [List.mem_range]
        calc r.minCol < rowLen g r.minRow := hb.2
          _ = rowLen g 0 := hrect _ hb.1
      · rw [List.mem_map]
        refine ⟨(r.minRow, r.maxRow), (scanRuns_mem _ _ _).2 hmax, ?_⟩
        obtain ⟨a0, b0, c0, d0⟩ := r
        cases hcol
        rfl

theorem mem_rectCells {r : Rect} {i j : Nat} :
    (i, j) ∈ rectCells r ↔
      (r.minRow ≤ i ∧ i ≤ r.maxRow) ∧ (r.minCol ≤ j ∧ j ≤ r.maxCol) := by
  unfold rectCells
  rw [List.mem_flatMap]
  constructor
  · rintro ⟨i', hi', hj⟩
    obtain ⟨j', hj', heq⟩ := List.mem_map.1 hj
    cases heq
    rw [List.mem_range'_1] at hi' hj'
    omega
  · rintro ⟨⟨h1, h2⟩, ⟨h3, h4⟩⟩
    refine ⟨i, List.mem_range'_1.2 (by omega), List.mem_map.2 ⟨j, List.mem_range'_1.2 (by omega), rfl⟩⟩

/-- Every cell of every extracted rectangle is occupied in the scanned
grid. -/
theorem allWordRects_cells_occupied {g : Grid} {r : Rect} (h : r ∈ allWordRects g)
    {i j : Nat} (hc : (i, j) ∈ rectCells r) : (getCell g i j).isSome = true := by
  obtain ⟨⟨h1, h2⟩, ⟨h3, h4⟩⟩ := mem_rectCells.1 hc
  rcases mem_allWordRects_cases h with ⟨hrow, hmax⟩ | ⟨hcol, hmax⟩
  · have hi : i = r.minRow := by omega
    subst hi
    have := hmax.2.1 j ((mem_run_range (by omega)).2 ⟨h3, h4⟩)
    rwa [occAt_rowOcc] at this
  · have hj : j = r.minCol := by omega
    subst hj
    have := hmax.2.1 i ((mem_run_range (by omega)).2 ⟨h1, h2⟩)
    rwa [occAt_colOcc] at this

theorem scoreWordAux_ok {squares : List (List Square)} {ts : TileSet}
    {oldTiles newTiles : Grid} :
    ∀ (cells : List (Nat × Nat)) (letters : List String) (lp wm : Int)
      (L : List String) (P W : Int),
      scoreWordAux squares ts oldTiles newTiles cells (letters, lp, wm) = .ok (L, P, W) →
      L = letters ++ cells.map (letterAt newTiles) ∧
      P = lp + (cells.map (specCellScore squares ts oldTiles newTiles)).sum ∧
      W = wm * specWordMult squares oldTiles cells
  | [], letters, lp, wm, L, P, W, h => by
    obtain ⟨h1, h2, h3⟩ : letters = L ∧ lp = P ∧ wm = W := by
      have := h
      simp only [scoreWordAux] at this
      exact ⟨congrArg (·.1) (Except.ok.inj this),
        congrArg (·.2.1) (Except.ok.inj this), congrArg (·.2.2) (Except.ok.inj this)⟩
    subst h1; subst h2; subst h3
    refine ⟨by simp, by simp [specWordMult], by simp [specWordMult]⟩
  | (i, j) :: rest, letters, lp, wm, L, P, W, h => by
    rw [scoreWordAux] at h
    cases hc : getCell newTiles i j with
    | none => rw [hc] at h; exact Except.noConfusion h
    | some tile =>
      rw [hc] at h
      simp only at h
      obtain ⟨h1, h2, h3⟩ := scoreWordAux_ok rest _ _ _ _ _ _ h
      refine ⟨?_, ?_, ?_⟩
      · rw [h1, List.map_cons]
        have : letterAt newTiles (i, j) = tile.letter := by
          unfold letterAt; rw [hc]; rfl
        rw [this]
        simp
      · rw [h2, List.map_cons, List.sum_cons]
        have : specCellScore squares ts oldTiles newTiles (i, j) =
            (if getCell oldTiles i j = none then (squareAt squares i j).letterMultiplier
             else 1) * ts.score tile.tile := by
          unfold specCellScore; rw [hc]
        rw [this]
        ring
      · rw [h3]
        unfold specWordMult
        by_cases hold : getCell oldTiles i j = none
        · rw [List.filter_cons_of_pos (by simpa using hold), List.map_cons,
            List.prod_cons, if_pos hold]
          ring
        · rw [List.filter_cons_of_neg (by simpa using hold), if_neg hold]

/-- If every cell of the remaining list is occupied, the scoring loop for a
word cannot fail. -/
theorem scoreWordAux_isOk {squares : List (List Square)} {ts : TileSet}
    {oldTiles newTiles : Grid} :
    ∀ (cells : List (Nat × Nat)) (acc : List String × Int × Int),
      (∀ c ∈ cells, (getCell newTiles c.1 c.2).isSome = true) →
      ∃ v, scoreWordAux squares ts oldTiles newTiles cells acc = .ok v
  | [], acc, _ => ⟨acc, rfl⟩
  | (i, j) :: rest, (letters, lp, wm), h => by
    rw [scoreWordAux]
    cases hc : getCell newTiles i j with
    | none =>
      have := h (i, j) (List.mem_cons_self ..)
      rw [hc] at this
      cases this
    | some tile =>
      simp only
      exact scoreWordAux_isOk rest _ (fun c hc' => h c (List.mem_cons_of_mem _ hc'))

theorem scoreWords_ok {squares : List (List Square)} {ts : TileSet}
    {oldTiles newTiles : Grid} :
    ∀ (rects : List Rect) (ws : List String) (pts : Int),
      scoreWords squares ts oldTiles newTiles rects = .ok (ws, pts) →
      ws = rects.map (fun r => String.join ((rectCells r).map (letterAt newTiles))) ∧
      pts = (rects.map (specWordScore squares ts oldTiles newTiles)).sum
  | [], ws, pts, h => by
    obtain ⟨h1, h2⟩ : ([] : List String) = ws ∧ (0 : Int) = pts :=
      ⟨congrArg (·.1) (Except.ok.inj h), congrArg (·.2) (Except.ok.inj h)⟩
    subst h1; subst h2
    exact ⟨rfl, rfl⟩
  | rect :: rest, ws, pts, h => by
    rw [scoreWords] at h
    cases haux : scoreWordAux squares ts oldTiles newTiles (rectCells rect) ([], 0, 1) with
    | error e => rw [haux] at h; exact Except.noConfusion h
    | ok v =>
      obtain ⟨letters, letterPoints, wordMult⟩ := v
      rw [haux] at h
      simp only at h
      cases hrest : scoreWords squares ts oldTiles newTiles rest with
      | error e => rw [hrest] at h; exact Except.noConfusion h
      | ok v' =>
        obtain ⟨ws', pts'⟩ := v'
        rw [hrest] at h
        simp only at h
        obtain ⟨hws, hpts⟩ : String.join letters :: ws' = ws ∧
            letterPoints * wordMult + pts' = pts :=
          ⟨congrArg (·.1) (Except.ok.inj h), congrArg (·.2) (Except.ok.inj h)⟩
        obtain ⟨ha, hb, hc⟩ := scoreWordAux_ok (rectCells rect) [] 0 1 _ _ _ haux
        obtain ⟨hws', hpts'⟩ := scoreWords_ok rest ws' pts' hrest
        subst hws; subst hpts
        constructor
        · rw [List.map_cons, hws', ha, List.nil_append]
        · rw [List.map_cons, List.sum_cons, hpts']
          have : letterPoints * wordMult = specWordScore squares ts oldTiles newTiles rect := by
            rw [hb, hc]
            unfold specWordScore
            ring
          rw [this]

theorem scoreWordAux_error_shape {squares : List (List Square)} {ts : TileSet}
    {oldTiles newTiles : Grid} :
    ∀ (cells : List (Nat × Nat)) (acc : List String × Int × Int) (e : String),
      scoreWordAux squares ts oldTiles newTiles cells acc = .error e →
      ∃ i j, e = internalErrMsg i j
  | [], _, e, h => Except.noConfusion h
  | (i, j) :: rest, (letters, lp, wm), e, h => by
    rw [scoreWordAux] at h
    cases hc : getCell newTiles i j with
    | none =>
      rw [hc] at h
      exact ⟨i, j, (Except.error.inj h).symm⟩
    | some tile =>
      rw [hc] at h
      simp only at h
      exact scoreWordAux_error_shape rest _ e h

theorem scoreWords_error_shape {squares : List (List Square)} {ts : TileSet}
    {oldTiles newTiles : Grid} :
    ∀ (rects : List Rect) (e : String),
      scoreWords squares ts oldTiles newTiles rects = .error e →
      ∃ i j, e = internalErrMsg i j
  | [], e, h => Except.noConfusion h
  | rect :: rest, e, h => by
    rw [scoreWords] at h
    cases haux : scoreWordAux squares ts oldTiles newTiles (rectCells rect) ([], 0, 1) with
    | error e' =>
      rw [haux] at h
      cases h
      exact scoreWordAux_error_shape (rectCells rect) _ _ haux
    | ok v =>
      obtain ⟨letters, letterPoints, wordMult⟩ := v
      rw [haux] at h
      simp only at h
      cases hrest : scoreWords squares ts oldTiles newTiles rest with
      | error e' =>
        rw [hrest] at h
        cases h
        exact scoreWords_error_shape rest _ hrest
      | ok v' =>
        obtain ⟨ws', pts'⟩ := v'
        rw [hrest] at h
        exact Except.noConfusion h

theorem msgTag_append (s t : String) (h : 3 ≤ s.data.length) :
    msgTag (s ++ t) = msgTag s := by
  unfold msgTag
  rw [String.data_append, List.take_append_of_le_length h]

theorem three_le_append_left {s : String} (t : String) (h : 3 ≤ s.data.length) :
    3 ≤ (s ++ t).data.length := by
  rw [String.data_append, List.length_append]
  omega

theorem msgTag_invalidTileMsg (l : String) :
    msgTag (invalidTileMsg l) = ['I', 'n', 'v'] := by
  unfold invalidTileMsg
  rw [msgTag_append _ _ (by decide)]
  decide

theorem msgTag_internalErrMsg (i j : Nat) :
    msgTag (internalErrMsg i j) = ['I', 'n', 't'] := by
  unfold internalErrMsg
  rw [msgTag_append _ _ (three_le_append_left _ (three_le_append_left _ (by decide))),
    msgTag_append _ _ (three_le_append_left _ (by decide)),
    msgTag_append _ _ (by decide)]
  decide

theorem msgTag_dictMsg (ws : List String) :
    msgTag (dictMsg ws) = ['W', 'o', 'r'] := by
  unfold dictMsg
  rw [msgTag_append _ _ (by decide)]
  decide

theorem newWordRects_nil (g : Grid) : newWordRects g [] = [] := by
  unfold newWordRects
  apply List.filter_eq_nil_iff.2
  intro a _
  simp

/-- Every accepted move commits the post-placement grid and appends exactly
one `Move` record built from the scoring stage (the pass branch agrees with
this shape because scoring an empty rectangle list yields no words and no
points). -/
theorem makeMove_ok_shape {vw : List String} {game : Game} {tps : List TilePlacement}
    {g' : Game} (h : makeMove vw game tps = .ok g') :
    ∃ ws pts,
      scoreWords game.squares game.tileSet game.tiles (applyPlacements game.tiles tps)
        (newWordRects (applyPlacements game.tiles tps) tps) = .ok (ws, pts) ∧
      g' = { game with
               tiles := applyPlacements game.tiles tps
               moves := game.moves ++
                 [⟨tps, ws, pts + (if tps.length = 7 then 50 else 0)⟩] } := by
  simp only [makeMove] at h
  split at h
  · -- pass
    next hlen =>
    have htps : tps = [] := List.length_eq_zero.1 hlen
    subst htps
    refine ⟨[], 0, ?_, ?_⟩
    · rw [newWordRects_nil]
      rfl
    · rw [← Except.ok.inj h]
      rfl
  · next hlen =>
    split at h
    · exact Except.noConfusion h
    · next hvalid =>
      split at h
      · exact Except.noConfusion h
      · next hplace =>
        split at h
        · exact Except.noConfusion h
        · next words basePoints hscore =>
          split at h
          · exact Except.noConfusion h
          · exact ⟨words, basePoints, hscore, (Except.ok.inj h).symm⟩

/-- Once the scoring stage has succeeded, `makeMove` is decided by the
dictionary check alone. -/
theorem makeMove_after_scoring {vw : List String} {game : Game} {tps : List TilePlacement}
    {ws : List String} {pts : Int}
    (hlen : tps.length ≠ 0)
    (hvalid : findInvalidTile game.tileSet tps = none)
    (hplace : (if game.checkTilePlacement then
        placementError game.tiles (applyPlacements game.tiles tps) tps
          (minimumOf (tps.map (·.row))) (maximumOf (tps.map (·.row)))
          (minimumOf (tps.map (·.col))) (maximumOf (tps.map (·.col)))
      else none) = none)
    (hscore : scoreWords game.squares game.tileSet game.tiles (applyPlacements game.tiles tps)
        (newWordRects (applyPlacements game.tiles tps) tps) = .ok (ws, pts)) :
    makeMove vw game tps =
      if game.useDictionary && !((ws.filter fun w => !(vw.contains w)).isEmpty) then
        .error (dictMsg (ws.filter fun w => !(vw.contains w)))
      else
        .ok { game with
                tiles := applyPlacements game.tiles tps
                moves := game.moves ++
                  [⟨tps, ws, pts + (if tps.length = 7 then 50 else 0)⟩] } := by
  simp only [makeMove, if_neg hlen, hvalid, hplace, hscore]

theorem findInvalidTile_shape {ts : TileSet} :
    ∀ {tps : List TilePlacement} {msg : String}, findInvalidTile ts tps = some msg →
      ∃ p ∈ tps, msg = invalidTileMsg p.tile.letter ∧
        ts.hasKey p.tile.letter = false ∧ p.tile.letter ≠ " "
  | [], msg, h => Option.noConfusion h
  | p :: rest, msg, h => by
    rw [findInvalidTile] at h
    split at h
    · next hcond =>
      rw [Bool.and_eq_true, Bool.not_eq_true', bne_iff_ne] at hcond
      exact ⟨p, List.mem_cons_self .., (Option.some.inj h).symm, hcond.1, hcond.2⟩
    · obtain ⟨q, hq, hmsg⟩ := findInvalidTile_shape h
      exact ⟨q, List.mem_cons_of_mem _ hq, hmsg⟩

theorem findInvalidTile_eq_none_iff {ts : TileSet} :
    ∀ {tps : List TilePlacement}, findInvalidTile ts tps = none ↔
      ∀ p ∈ tps, ts.hasKey p.tile.letter = true ∨ p.tile.letter = " "
  | [] => ⟨fun _ p hp => absurd hp (List.not_mem_nil p), fun _ => rfl⟩
  | p :: rest => by
    rw [findInvalidTile]
    split
    · next hcond =>
      rw [Bool.and_eq_true, Bool.not_eq_true', bne_iff_ne] at hcond
      constructor
      · intro h; exact Option.noConfusion h
      · intro hall
        exfalso
        rcases hall p (List.mem_cons_self ..) with h | h
        · rw [hcond.1] at h; cases h
        · exact hcond.2 h
    · next hcond =>
      rw [Bool.and_eq_true, Bool.not_eq_true', bne_iff_ne] at hcond
      rw [findInvalidTile_eq_none_iff]
      constructor
      · intro hall q hq
        rcases List.mem_cons.1 hq with rfl | hq'
        · rcases Bool.eq_false_or_eq_true (ts.hasKey q.tile.letter) with h | h
          · exact Or.inl h
          · by_cases hsp : q.tile.letter = " "
            · exact Or.inr hsp
            · exact absurd ⟨h, hsp⟩ hcond
        · exact hall q hq'
      · intro hall q hq
        exact hall q (List.mem_cons_of_mem _ hq)

theorem findInvalidTile_eq_some_of {ts : TileSet} :
    ∀ {tps : List TilePlacement}, (∃ p ∈ tps, ts.hasKey p.tile.letter = false ∧
      p.tile.letter ≠ " ") → ∃ msg, findInvalidTile ts tps = some msg := by
  intro tps h
  cases he : findInvalidTile ts tps with
  | some msg => exact ⟨msg, rfl⟩
  | none =>
    obtain ⟨p, hp, hbad, hsp⟩ := h
    rcases findInvalidTile_eq_none_iff.1 he p hp with h' | h'
    · rw [hbad] at h'; cases h'
    · exact absurd h' hsp

theorem placementError_shape {oldTiles newTiles : Grid} {tps : List TilePlacement}
    {minRow maxRow minCol maxCol : Nat} {msg : String}
    (h : placementError oldTiles newTiles tps minRow maxRow minCol maxCol = some msg) :
    msg = "Cannot place more than 7 tiles" ∨ msg = "Tiles must be placed in a line" ∨
    msg = "Gaps between tiles are not allowed" ∨ msg = "Tiles must touch existing tiles" := by
  unfold placementError at h
  split at h
  · exact Or.inl (Option.some.inj h).symm
  · split at h
    · exact Or.inr (Or.inl (Option.some.inj h).symm)
    · split at h
      · exact Or.inr (Or.inr (Or.inl (Option.some.inj h).symm))
      · split at h
        · exact Or.inr (Or.inr (Or.inr (Option.some.inj h).symm))
        · exact Option.noConfusion h

theorem scoreWords_isOk_of_occupied {squares : List (List Square)} {ts : TileSet}
    {oldTiles newTiles : Grid} :
    ∀ (rects : List Rect),
      (∀ r ∈ rects, ∀ c ∈ rectCells r, (getCell newTiles c.1 c.2).isSome = true) →
      ∃ v, scoreWords squares ts oldTiles newTiles rects = .ok v
  | [], _ => ⟨([], 0), rfl⟩
  | rect :: rest, h => by
    rw [scoreWords]
    obtain ⟨v, hv⟩ := @scoreWordAux_isOk squares ts oldTiles newTiles
      (rectCells rect) ([], 0, 1) (h rect (List.mem_cons_self ..))
    rw [hv]
    obtain ⟨letters, letterPoints, wordMult⟩ := v
    obtain ⟨v', hv'⟩ := scoreWords_isOk_of_occupied rest
      (fun r hr => h r (List.mem_cons_of_mem _ hr))
    rw [hv']
    obtain ⟨ws, pts⟩ := v'
    exact ⟨_, rfl⟩

/-- The scoring stage never fails on the rectangles `makeMove` feeds it:
they come from the scanner, so all of their cells are occupied. -/
theorem scoreWords_newWordRects_isOk (squares : List (List Square)) (ts : TileSet)
    (oldTiles newTiles : Grid) (tps : List TilePlacement) :
    ∃ v, scoreWords squares ts oldTiles newTiles (newWordRects newTiles tps) = .ok v := by
  apply scoreWords_isOk_of_occupied
  intro r hr c hc
  have hmem : r ∈ allWordRects newTiles := (List.mem_filter.1 hr).1
  obtain ⟨i, j⟩ := c
  exact allWordRects_cells_occupied hmem hc

theorem makeMove_invalid_tile {vw : List String} {game : Game} {tps : List TilePlacement}
    {msg : String} (hlen : tps.length ≠ 0)
    (h : findInvalidTile game.tileSet tps = some msg) :
    makeMove vw game tps = .error msg := by
  simp only [makeMove, if_neg hlen, h]

theorem makeMove_placement_rejected {vw : List String} {game : Game} {tps : List TilePlacement}
    {msg : String} (hlen : tps.length ≠ 0)
    (hvalid : findInvalidTile game.tileSet tps = none)
    (hplace : (if game.checkTilePlacement then
        placementError game.tiles (applyPlacements game.tiles tps) tps
          (minimumOf (tps.map (·.row))) (maximumOf (tps.map (·.row)))
          (minimumOf (tps.map (·.col))) (maximumOf (tps.map (·.col)))
      else none) = some msg) :
    makeMove vw game tps = .error msg := by
  simp only [makeMove, if_neg hlen, hvalid, hplace]

/-- Classification of every error `makeMove` can return: an invalid-tile
message, one of the four placement-rule messages, or a dictionary message.
(The internal scoring error is not on the list: it cannot occur.) -/
theorem makeMove_error_cases {vw : List String} {game : Game} {tps : List TilePlacement}
    {e : String} (h : makeMove vw game tps = .error e) :
    findInvalidTile game.tileSet tps = some e ∨
    (e = "Cannot place more than 7 tiles" ∨ e = "Tiles must be placed in a line" ∨
     e = "Gaps between tiles are not allowed" ∨ e = "Tiles must touch existing tiles") ∨
    (∃ ws : List String, e = dictMsg ws) := by
  simp only [makeMove] at h
  split at h
  · exact Except.noConfusion h
  · next hlen =>
    split at h
    · next msg hfind =>
      cases h
      exact Or.inl hfind
    · next hvalid =>
      split at h
      · next msg hplace =>
        cases h
        split at hplace
        · exact Or.inr (Or.inl (placementError_shape hplace))
        · exact Option.noConfusion hplace
      · next hplace =>
        split at h
        · next e' hscore =>
          obtain ⟨v, hv⟩ := scoreWords_newWordRects_isOk game.squares game.tileSet
            game.tiles (applyPlacements game.tiles tps) tps
          rw [hscore] at hv
          exact Except.noConfusion hv
        · next words basePoints hscore =>
          split at h
          · cases h
            exact Or.inr (Or.inr ⟨_, rfl⟩)
          · exact Except.noConfusion h

/-! ### Claim theorems -/

/-- C9: the internal-error branch of the scoring loop is unreachable:
`makeMove` never returns the internal null-tile error, because every cell of
every extracted word rectangle is occupied in the post-placement grid (word
rectangles are maximal runs of occupied cells). -/
theorem claim9_internal_error_unreachable (vw : List String) (game : Game)
    (tps : List TilePlacement) : isInternalError (makeMove vw game tps) = false := by
  cases h : makeMove vw game tps with
  | ok g' => rfl
  | error e =>
    show decide (e.data.take 3 = ['I', 'n', 't']) = false
    rw [decide_eq_false_iff_not]
    intro htag
    have htag' : msgTag e = ['I', 'n', 't'] := htag
    rcases makeMove_error_cases h with hfind | hconst | ⟨ws, rfl⟩
    · obtain ⟨p, _, rfl, _, _⟩ := findInvalidTile_shape hfind
      rw [msgTag_invalidTileMsg] at htag'
      exact absurd htag' (by decide)
    · rcases hconst with rfl | rfl | rfl | rfl <;> exact absurd htag' (by decide)
    · rw [msgTag_dictMsg] at htag'
      exact absurd htag' (by decide)

/-- C7: every accepted move's points carry a flat 50-point bonus exactly
when 7 tiles were placed, added to the word-sum score computed by the
scoring stage (this also covers the pass and zero-word cases, where the
word-sum is 0). -/
theorem claim7_bingo_bonus {vw : List String} {game : Game} {tps : List TilePlacement}
    {g' : Game} (h : makeMove vw game tps = .ok g') :
    ∃ m ws pts, g'.moves = game.moves ++ [m] ∧ m.tiles = tps ∧ m.words = ws ∧
      scoreWords game.squares game.tileSet game.tiles (applyPlacements game.tiles tps)
        (newWordRects (applyPlacements game.tiles tps) tps) = .ok (ws, pts) ∧
      m.points = pts + (if tps.length = 7 then 50 else 0) := by
  obtain ⟨ws, pts, hscore, rfl⟩ := makeMove_ok_shape h
  exact ⟨_, ws, pts, rfl, rfl, rfl, hscore, rfl⟩

/-- Witness for C7: the triple-word `cat` play. -/
theorem claim7_bingo_bonus_witness :
    ∃ m ws pts, tripleGame'.moves = tripleGame.moves ++ [m] ∧ m.tiles = tripleMove ∧
      m.words = ws ∧
      scoreWords tripleGame.squares tripleGame.tileSet tripleGame.tiles
        (applyPlacements tripleGame.tiles tripleMove)
        (newWordRects (applyPlacements tripleGame.tiles tripleMove) tripleMove) =
          .ok (ws, pts) ∧
      m.points = pts + (if tripleMove.length = 7 then 50 else 0) :=
  @claim7_bingo_bonus [] tripleGame tripleMove tripleGame' (by rfl)

/-- C2: for every accepted non-pass move, the committed points are the
sum over all extracted word rectangles of the spec formula — per cell, tile
value times letter multiplier with the multiplier only on cells that were
empty before the move; per word, that sum times the product of the word
multipliers of the cells that were empty before the move — plus the
(separately stated) full-rack bonus term. -/
theorem claim2_scoring_formula {vw : List String} {game : Game}
    {tps : List TilePlacement} {g' : Game}
    (hne : tps ≠ []) (h : makeMove vw game tps = .ok g') :
    ∃ m, g'.moves = game.moves ++ [m] ∧
      m.points = ((newWordRects (applyPlacements game.tiles tps) tps).map
          (specWordScore game.squares game.tileSet game.tiles
            (applyPlacements game.tiles tps))).sum +
        (if tps.length = 7 then 50 else 0) := by
  obtain ⟨ws, pts, hscore, rfl⟩ := makeMove_ok_shape h
  obtain ⟨hws, hpts⟩ := scoreWords_ok _ ws pts hscore
  refine ⟨_, rfl, ?_⟩
  show pts + _ = _
  rw [hpts]

/-- Witness for C2: the triple-word `cat` play scores 15. -/
theorem claim2_scoring_formula_witness :
    tripleMove ≠ [] ∧
    ∃ m, tripleGame'.moves = tripleGame.moves ++ [m] ∧
      m.points = ((newWordRects (applyPlacements tripleGame.tiles tripleMove) tripleMove).map
          (specWordScore tripleGame.squares tripleGame.tileSet tripleGame.tiles
            (applyPlacements tripleGame.tiles tripleMove))).sum +
        (if tripleMove.length = 7 then 50 else 0) :=
  ⟨by decide, @claim2_scoring_formula [] tripleGame tripleMove tripleGame' (by decide) (by rfl)⟩

/-- Counterexample to C5 as stated: every placement's *scoring key* is a
known letter (`"a"`), yet the invalid-tile error is produced — the source
validates the displayed letter, not the scoring key. -/
theorem claim5_counterexample :
    demoTileSet.hasKey "a" = true ∧
    makeMove [] tinyGame [⟨⟨"a", "!"⟩, 0, 0⟩] = .error (invalidTileMsg "!") :=
  ⟨by decide, by rfl⟩

/-- C5, amended: for every game state and non-empty placement list,
regardless of the placement-check flag, `makeMove` rejects with an
invalid-tile error iff some placement's *displayed letter* is neither a key
of the tile-score table nor the space character. -/
theorem claim5_invalid_tile_amended (vw : List String) (game : Game)
    (tps : List TilePlacement) (hne : tps.length ≠ 0) :
    (∃ p ∈ tps, game.tileSet.hasKey p.tile.letter = false ∧ p.tile.letter ≠ " ") ↔
      ∃ l, makeMove vw game tps = .error (invalidTileMsg l) := by
  constructor
  · intro hbad
    obtain ⟨msg, hmsg⟩ := findInvalidTile_eq_some_of hbad
    obtain ⟨p, _, rfl, _, _⟩ := findInvalidTile_shape hmsg
    exact ⟨p.tile.letter, makeMove_invalid_tile hne hmsg⟩
  · rintro ⟨l, herr⟩
    by_contra hgood
    have hnone : findInvalidTile game.tileSet tps = none := by
      rw [findInvalidTile_eq_none_iff]
      intro p hp
      by_cases hk : game.tileSet.hasKey p.tile.letter = true
      · exact Or.inl hk
      · have hk' : game.tileSet.hasKey p.tile.letter = false := by
          cases h' : game.tileSet.hasKey p.tile.letter
          · rfl
          · exact absurd h' hk
        by_cases hsp : p.tile.letter = " "
        · exact Or.inr hsp
        · exact absurd ⟨p, hp, hk', hsp⟩ hgood
    rcases makeMove_error_cases herr with hfind | hconst | ⟨ws, hdict⟩
    · rw [hnone] at hfind
      exact Option.noConfusion hfind
    · rcases hconst with heq | heq | heq | heq <;>
      · have := congrArg msgTag heq
        rw [msgTag_invalidTileMsg] at this
        exact absurd this (by decide)
    · have := congrArg msgTag hdict
      rw [msgTag_invalidTileMsg, msgTag_dictMsg] at this
      exact absurd this (by decide)

/-- Witness for C5 (amended): a displayed letter `"!"` triggers the
rejection even though its scoring key is known. -/
theorem claim5_invalid_tile_witness :
    ([⟨⟨"a", "!"⟩, 0, 0⟩] : List TilePlacement).length ≠ 0 ∧
    ((∃ p ∈ ([⟨⟨"a", "!"⟩, 0, 0⟩] : List TilePlacement),
        tinyGame.tileSet.hasKey p.tile.letter = false ∧ p.tile.letter ≠ " ") ↔
      ∃ l, makeMove [] tinyGame [⟨⟨"a", "!"⟩, 0, 0⟩] = .error (invalidTileMsg l)) :=
  ⟨by decide, claim5_invalid_tile_amended [] tinyGame _ (by decide)⟩

/-- C10: `makeMove` does not reject placements onto occupied cells: on
`overlapGame`, the placement covering the occupied cell (0,0) is accepted
and replaces the `a` there with the new `b`; the subsequent `undo` resets
that cell to empty instead of restoring the `a`, while the untouched cell
(0,1) keeps its tile. -/
theorem claim10_overlap_replacement :
    getCell overlapGame.tiles 0 0 = some (pt "a") ∧
    makeMove [] overlapGame overlapMove = .ok overlapGame' ∧
    getCell overlapGame'.tiles 0 0 = some (pt "b") ∧
    getCell (undo overlapGame').tiles 0 0 = none ∧
    getCell (undo overlapGame').tiles 0 1 = some (pt "a") :=
  ⟨by decide, by rfl, by decide, by decide, by decide⟩

/-- Counterexample to C6 as stated: with dictionary `["ab"]`, the play
`AB` (uppercase tiles) passes placement validation but is rejected, even
though its case-normalized form `ab` is in the dictionary — the source does
no case normalization at lookup. -/
theorem claim6_counterexample :
    makeMove ["ab"] upperGame upperMove = .error (dictMsg ["AB"]) ∧
    String.mk ("AB".data.map Char.toLower) = "ab" ∧ "ab" ∈ ["ab"] ∧
    upperGame.useDictionary = true :=
  ⟨by rfl, by decide, by decide, rfl⟩

/-- C6, amended (the looked-up word is compared exactly, with no case
normalization): with the dictionary enabled, once a non-pass move has
passed tile validation, placement validation and scoring, it is rejected
iff some extracted word (built from the placements' displayed letters,
wildcard-covered cells included) is not in the dictionary as-is, and the
error message enumerates every offending word. -/
theorem claim6_dictionary_amended {vw : List String} {game : Game}
    {tps : List TilePlacement} {ws : List String} {pts : Int}
    (hne : tps.length ≠ 0)
    (hvalid : findInvalidTile game.tileSet tps = none)
    (hplace : (if game.checkTilePlacement then
        placementError game.tiles (applyPlacements game.tiles tps) tps
          (minimumOf (tps.map (·.row))) (maximumOf (tps.map (·.row)))
          (minimumOf (tps.map (·.col))) (maximumOf (tps.map (·.col)))
      else none) = none)
    (hscore : scoreWords game.squares game.tileSet game.tiles
        (applyPlacements game.tiles tps)
        (newWordRects (applyPlacements game.tiles tps) tps) = .ok (ws, pts))
    (hdict : game.useDictionary = true) :
    ((∃ w ∈ ws, vw.contains w = false) →
        makeMove vw game tps = .error (dictMsg (ws.filter fun w => !(vw.contains w)))) ∧
    ((∀ w ∈ ws, vw.contains w = true) →
        makeMove vw game tps =
          .ok { game with
                  tiles := applyPlacements game.tiles tps
                  moves := game.moves ++
                    [⟨tps, ws, pts + (if tps.length = 7 then 50 else 0)⟩] }) := by
  have hM := @makeMove_after_scoring vw game tps ws pts hne hvalid hplace hscore
  constructor
  · rintro ⟨w, hw, hwc⟩
    have hmem : w ∈ ws.filter (fun w => !(vw.contains w)) :=
      List.mem_filter.2 ⟨hw, by rw [hwc]; rfl⟩
    rw [hM, if_pos]
    rw [hdict, Bool.true_and, Bool.not_eq_true', List.isEmpty_eq_false]
    exact List.ne_nil_of_mem hmem
  · intro hall
    have hnil : ws.filter (fun w => !(vw.contains w)) = [] :=
      List.filter_eq_nil_iff.2 (fun w hw => by rw [hall w hw]; simp)
    rw [hM, hnil]
    rw [if_neg (by simp)]

/-- Witness for C6 (amended), instantiated at the uppercase play. -/
theorem claim6_dictionary_witness :
    ((∃ w ∈ ["AB"], (["ab"] : List String).contains w = false) →
        makeMove ["ab"] upperGame upperMove =
          .error (dictMsg (["AB"].filter fun w => !((["ab"] : List String).contains w)))) ∧
    ((∀ w ∈ ["AB"], (["ab"] : List String).contains w = true) →
        makeMove ["ab"] upperGame upperMove =
          .ok { upperGame with
                  tiles := applyPlacements upperGame.tiles upperMove
                  moves := upperGame.moves ++
                    [⟨upperMove, ["AB"], 2 + (if upperMove.length = 7 then 50 else 0)⟩] }) :=
  @claim6_dictionary_amended ["ab"] upperGame upperMove ["AB"] 2
    (by decide) (by decide) (by decide) (by rfl) rfl

/-- The `touching` test of the source, which reads the post-placement grid
at cells around the bounding rectangle, agrees with the spec-side predicate
over the pre-move grid: those cells lie outside the rectangle, so no
placement can have written to them. -/
theorem touchesExisting_iff_adjacent (g : Grid) (tps : List TilePlacement) :
    touchesExisting (applyPlacements g tps)
        (minimumOf (tps.map (·.row))) (maximumOf (tps.map (·.row)))
        (minimumOf (tps.map (·.col))) (maximumOf (tps.map (·.col))) = true ↔
      AdjacentOccupied g (minimumOf (tps.map (·.row))) (maximumOf (tps.map (·.row)))
        (minimumOf (tps.map (·.col))) (maximumOf (tps.map (·.col))) := by
  have hleft : ∀ i, 1 ≤ minimumOf (tps.map (·.col)) →
      getCell (applyPlacements g tps) i (minimumOf (tps.map (·.col)) - 1) =
        getCell g i (minimumOf (tps.map (·.col)) - 1) := by
    intro i hc
    apply getCell_applyPlacements_not_target
    rintro p hp ⟨_, hcol⟩
    have h2 : minimumOf (tps.map (·.col)) ≤ p.col :=
      minimumOf_le (List.mem_map_of_mem _ hp)
    omega
  have hright : ∀ i,
      getCell (applyPlacements g tps) i (maximumOf (tps.map (·.col)) + 1) =
        getCell g i (maximumOf (tps.map (·.col)) + 1) := by
    intro i
    apply getCell_applyPlacements_not_target
    rintro p hp ⟨_, hcol⟩
    have h2 : p.col ≤ maximumOf (tps.map (·.col)) :=
      le_maximumOf (List.mem_map_of_mem _ hp)
    omega
  have hup : ∀ j, 1 ≤ minimumOf (tps.map (·.row)) →
      getCell (applyPlacements g tps) (minimumOf (tps.map (·.row)) - 1) j =
        getCell g (minimumOf (tps.map (·.row)) - 1) j := by
    intro j hr
    apply getCell_applyPlacements_not_target
    rintro p hp ⟨hrow, _⟩
    have h2 : minimumOf (tps.map (·.row)) ≤ p.row :=
      minimumOf_le (List.mem_map_of_mem _ hp)
    omega
  have hdown : ∀ j,
      getCell (applyPlacements g tps) (maximumOf (tps.map (·.row)) + 1) j =
        getCell g (maximumOf (tps.map (·.row)) + 1) j := by
    intro j
    apply getCell_applyPlacements_not_target
    rintro p hp ⟨hrow, _⟩
    have h2 : p.row ≤ maximumOf (tps.map (·.row)) :=
      le_maximumOf (List.mem_map_of_mem _ hp)
    omega
  unfold touchesExisting AdjacentOccupied
  rw [Bool.or_eq_true]
  simp only [List.any_eq_true, Bool.or_eq_true, Bool.and_eq_true, decide_eq_true_eq]
  constructor
  · rintro (⟨i, hi, ⟨hg', hc⟩ | ⟨hg', hc⟩⟩ | ⟨j, hj, ⟨hg', hc⟩ | ⟨hg', hc⟩⟩)
    · exact Or.inl ⟨i, hi, Or.inl ⟨hg', by rw [← hleft i hg']; exact hc⟩⟩
    · refine Or.inl ⟨i, hi, Or.inr ⟨?_, ?_⟩⟩
      · rw [← rowLen_applyPlacements g tps i]; exact hg'
      · rw [← hright i]; exact hc
    · exact Or.inr ⟨j, hj, Or.inl ⟨hg', by rw [← hup j hg']; exact hc⟩⟩
    · refine Or.inr ⟨j, hj, Or.inr ⟨?_, ?_⟩⟩
      · rw [← length_applyPlacements g tps]; exact hg'
      · rw [← hdown j]; exact hc
  · rintro (⟨i, hi, ⟨hg', hc⟩ | ⟨hg', hc⟩⟩ | ⟨j, hj, ⟨hg', hc⟩ | ⟨hg', hc⟩⟩)
    · exact Or.inl ⟨i, hi, Or.inl ⟨hg', by rw [hleft i hg']; exact hc⟩⟩
    · refine Or.inl ⟨i, hi, Or.inr ⟨?_, ?_⟩⟩
      · rw [rowLen_applyPlacements g tps i]; exact hg'
      · rw [hright i]; exact hc
    · exact Or.inr ⟨j, hj, Or.inl ⟨hg', by rw [hup j hg']; exact hc⟩⟩
    · refine Or.inr ⟨j, hj, Or.inr ⟨?_, ?_⟩⟩
      · rw [length_applyPlacements g tps]; exact hg'
      · rw [hdown j]; exact hc

/-- Counterexample to C4 as stated: the move is rejected with the
not-touching error even though a placement is orthogonally adjacent to a
previously occupied cell (the source only inspects cells adjacent to the
whole bounding rectangle, so a play through an existing tile is refused). -/
theorem claim4_counterexample :
    makeMove [] touchGame touchMove = .error "Tiles must touch existing tiles" ∧
    ∃ p ∈ touchMove, (getCell touchGame.tiles p.row (p.col + 1)).isSome = true :=
  ⟨by rfl, by decide⟩

/-- C4, amended: with placement checking on, for a non-empty placement
list passing the tile, rack-size, line and gap checks, the move is rejected
with the not-touching error iff the board had at least one occupied cell
before the move and no cell orthogonally adjacent to the placements'
bounding rectangle was previously occupied. -/
theorem claim4_not_touching_amended (vw : List String) (game : Game)
    (tps : List TilePlacement)
    (hne : tps.length ≠ 0)
    (hvalid : findInvalidTile game.tileSet tps = none)
    (hcheck : game.checkTilePlacement = true)
    (hcount : ¬ tps.length > 7)
    (hline : ¬(minimumOf (tps.map (·.row)) ≠ maximumOf (tps.map (·.row)) ∧
      minimumOf (tps.map (·.col)) ≠ maximumOf (tps.map (·.col))))
    (hgap : hasGap (applyPlacements game.tiles tps) (minimumOf (tps.map (·.row)))
      (maximumOf (tps.map (·.row))) (minimumOf (tps.map (·.col)))
      (maximumOf (tps.map (·.col))) = false) :
    makeMove vw game tps = .error "Tiles must touch existing tiles" ↔
      anyTile game.tiles = true ∧
      ¬ AdjacentOccupied game.tiles (minimumOf (tps.map (·.row)))
          (maximumOf (tps.map (·.row))) (minimumOf (tps.map (·.col)))
          (maximumOf (tps.map (·.col))) := by
  have hbridge := touchesExisting_iff_adjacent game.tiles tps
  have hperr : placementError game.tiles (applyPlacements game.tiles tps) tps
      (minimumOf (tps.map (·.row))) (maximumOf (tps.map (·.row)))
      (minimumOf (tps.map (·.col))) (maximumOf (tps.map (·.col))) =
      (if (!(touchesExisting (applyPlacements game.tiles tps)
            (minimumOf (tps.map (·.row))) (maximumOf (tps.map (·.row)))
            (minimumOf (tps.map (·.col))) (maximumOf (tps.map (·.col))))
          && anyTile game.tiles) = true
        then some "Tiles must touch existing tiles" else none) := by
    unfold placementError
    rw [if_neg hcount, if_neg hline, if_neg (by rw [hgap]; exact Bool.false_ne_true)]
  by_cases ht : (!(touchesExisting (applyPlacements game.tiles tps)
      (minimumOf (tps.map (·.row))) (maximumOf (tps.map (·.row)))
      (minimumOf (tps.map (·.col))) (maximumOf (tps.map (·.col))))
      && anyTile game.tiles) = true
  · have hplace : (if game.checkTilePlacement then
        placementError game.tiles (applyPlacements game.tiles tps) tps
          (minimumOf (tps.map (·.row))) (maximumOf (tps.map (·.row)))
          (minimumOf (tps.map (·.col))) (maximumOf (tps.map (·.col)))
      else none) = some "Tiles must touch existing tiles" := by
      rw [hcheck, if_pos rfl, hperr, if_pos ht]
    rw [makeMove_placement_rejected hne hvalid hplace]
    rw [Bool.and_eq_true] at ht
    obtain ⟨hnt, hany⟩ := ht
    constructor
    · intro _
      refine ⟨hany, fun hA => ?_⟩
      have := hbridge.2 hA
      rw [Bool.not_eq_true'] at hnt
      rw [hnt] at this
      cases this
    · intro _
      rfl
  · have hplace : (if game.checkTilePlacement then
        placementError game.tiles (applyPlacements game.tiles tps) tps
          (minimumOf (tps.map (·.row))) (maximumOf (tps.map (·.row)))
          (minimumOf (tps.map (·.col))) (maximumOf (tps.map (·.col)))
      else none) = none := by
      rw [hcheck, if_pos rfl, hperr, if_neg ht]
    obtain ⟨⟨ws, pts⟩, hscore⟩ := scoreWords_newWordRects_isOk game.squares game.tileSet
      game.tiles (applyPlacements game.tiles tps) tps
    have hM := @makeMove_after_scoring vw game tps ws pts hne hvalid hplace hscore
    constructor
    · intro herr
      exfalso
      rw [hM] at herr
      by_cases hc : (game.useDictionary
          && !((ws.filter fun w => !(vw.contains w)).isEmpty)) = true
      · rw [if_pos hc] at herr
        have := congrArg msgTag (Except.error.inj herr)
        rw [msgTag_dictMsg] at this
        exact absurd this (by decide)
      · rw [if_neg hc] at herr
        exact Except.noConfusion herr
    · rintro ⟨hany, hnadj⟩
      exfalso
      have htt : touchesExisting (applyPlacements game.tiles tps)
          (minimumOf (tps.map (·.row))) (maximumOf (tps.map (·.row)))
          (minimumOf (tps.map (·.col))) (maximumOf (tps.map (·.col))) = true := by
        cases htt' : touchesExisting (applyPlacements game.tiles tps)
            (minimumOf (tps.map (·.row))) (maximumOf (tps.map (·.row)))
            (minimumOf (tps.map (·.col))) (maximumOf (tps.map (·.col)))
        · exact absurd (by rw [htt', hany]; rfl) ht
        · rfl
      exact hnadj (hbridge.1 htt)

/-- Witness for C4 (amended), instantiated at the sandwich play (which the
source rejects). -/
theorem claim4_not_touching_witness :
    makeMove [] touchGame touchMove = .error "Tiles must touch existing tiles" ↔
      anyTile touchGame.tiles = true ∧
      ¬ AdjacentOccupied touchGame.tiles (minimumOf (touchMove.map (·.row)))
          (maximumOf (touchMove.map (·.row))) (minimumOf (touchMove.map (·.col)))
          (maximumOf (touchMove.map (·.col))) :=
  claim4_not_touching_amended [] touchGame touchMove (by decide) (by decide) rfl
    (by decide) (by decide) (by decide)

theorem rectanglesIntersect_point (w : Rect) (r c : Nat) :
    rectanglesIntersect w ⟨r, c, r, c⟩ = true ↔
      (w.minRow ≤ r ∧ r ≤ w.maxRow) ∧ (w.minCol ≤ c ∧ c ≤ w.maxCol) := by
  unfold rectanglesIntersect intervalsIntersect
  simp only [Bool.and_eq_true, Bool.not_eq_true', Bool.or_eq_false_iff,
    decide_eq_false_iff_not, Nat.not_lt]
  omega

/-- Counterexample to C3 as stated: after an accepted non-pass move on
`crossGame`, the maximal vertical run spanning rows 0–1 of column 1 has a
bounding rectangle that intersects the bounding rectangle of the new
placements, yet it is not among the extracted word rectangles — the source
filters by the 1×1 rectangles of the individual placements instead. -/
theorem claim3_counterexample :
    (makeMove [] crossGame crossMove).toBool = true ∧
    IsMaxRun (colOcc (applyPlacements crossGame.tiles crossMove) 1) 0 1 ∧
    rectanglesIntersect ⟨0, 1, 1, 1⟩
      ⟨minimumOf (crossMove.map (·.row)), minimumOf (crossMove.map (·.col)),
       maximumOf (crossMove.map (·.row)), maximumOf (crossMove.map (·.col))⟩ = true ∧
    ⟨0, 1, 1, 1⟩ ∉ newWordRects (applyPlacements crossGame.tiles crossMove) crossMove :=
  ⟨by rfl, by decide, by decide, by decide⟩

/-- C3, amended (the filter keeps the runs whose rectangle contains at
least one placement's cell): on a rectangular board, the extracted word
rectangles are exactly the maximal horizontal and vertical runs of occupied
cells of length ≥ 2 of the post-placement grid whose bounding rectangle
contains the cell of at least one new placement. -/
theorem claim3_extraction_amended (game : Game) (tps : List TilePlacement)
    (hrect : IsRectangular (applyPlacements game.tiles tps)) (r : Rect) :
    r ∈ newWordRects (applyPlacements game.tiles tps) tps ↔
      ((r.minRow = r.maxRow ∧
          IsMaxRun (rowOcc (applyPlacements game.tiles tps) r.minRow) r.minCol r.maxCol) ∨
        (r.minCol = r.maxCol ∧
          IsMaxRun (colOcc (applyPlacements game.tiles tps) r.minCol) r.minRow r.maxRow)) ∧
      ∃ p ∈ tps, (r.minRow ≤ p.row ∧ p.row ≤ r.maxRow) ∧
        (r.minCol ≤ p.col ∧ p.col ≤ r.maxCol) := by
  unfold newWordRects
  rw [List.mem_filter, mem_allWordRects hrect]
  apply and_congr_right
  intro _
  rw [List.any_eq_true]
  constructor
  · rintro ⟨p, hp, hint⟩
    exact ⟨p, hp, (rectanglesIntersect_point r p.row p.col).1 hint⟩
  · rintro ⟨p, hp, hint⟩
    exact ⟨p, hp, (rectanglesIntersect_point r p.row p.col).2 hint⟩

/-- Witness for C3 (amended): on the cross board, the vertical pre-existing
run is excluded and must fail the containment test. -/
theorem claim3_extraction_witness :
    IsRectangular (applyPlacements crossGame.tiles crossMove) ∧
    ((⟨0, 1, 1, 1⟩ : Rect) ∈ newWordRects (applyPlacements crossGame.tiles crossMove) crossMove ↔
      (((0 : Nat) = 1 ∧
          IsMaxRun (rowOcc (applyPlacements crossGame.tiles crossMove) 0) 1 1) ∨
        ((1 : Nat) = 1 ∧
          IsMaxRun (colOcc (applyPlacements crossGame.tiles crossMove) 1) 0 1)) ∧
      ∃ p ∈ crossMove, ((0 : Nat) ≤ p.row ∧ p.row ≤ 1) ∧ ((1 : Nat) ≤ p.col ∧ p.col ≤ 1)) :=
  ⟨by decide, claim3_extraction_amended crossGame crossMove (by decide) ⟨0, 1, 1, 1⟩⟩

/-- C8: `undo` is a no-op on an empty history, and exactly inverts an
accepted move whose placements target in-bounds cells that were empty: the
touched cells are reset to empty, all other cells are unchanged, the
appended `Move` is dropped, and the whole `Game` value is restored. -/
theorem claim8_undo_inverse :
    (∀ g : Game, g.moves = [] → undo g = g) ∧
    (∀ (vw : List String) (S S' : Game) (tps : List TilePlacement),
      (∀ p ∈ tps, p.row < S.tiles.length ∧ p.col < rowLen S.tiles p.row) →
      (∀ p ∈ tps, getCell S.tiles p.row p.col = none) →
      makeMove vw S tps = .ok S' → undo S' = S) := by
  constructor
  · intro g hg
    unfold undo
    rw [if_pos (by rw [hg]; rfl)]
  · intro vw S S' tps hb hempty hok
    obtain ⟨ws, pts, hscore, rfl⟩ := makeMove_ok_shape hok
    have htiles : erasePlacements (applyPlacements S.tiles tps) tps = S.tiles := by
      apply grid_ext
      · rw [length_erasePlacements, length_applyPlacements]
      · intro r
        rw [rowLen_erasePlacements, rowLen_applyPlacements]
      · intro r c
        by_cases htarget : ∃ p ∈ tps, p.row = r ∧ p.col = c
        · obtain ⟨p, hp, hpr, hpc⟩ := htarget
          have hbp := hb p hp
          have hr : r < (applyPlacements S.tiles tps).length := by
            rw [length_applyPlacements]; omega
          have hc : c < rowLen (applyPlacements S.tiles tps) r := by
            rw [rowLen_applyPlacements]
            have h2 := hbp.2
            rw [hpr] at h2
            omega
          rw [getCell_erasePlacements_target _ _ _ _ hr hc ⟨p, hp, hpr, hpc⟩]
          have := hempty p hp
          rw [hpr, hpc] at this
          exact this.symm
        · rw [getCell_erasePlacements_not_target _ _ _ _
            (fun p hp hpc => htarget ⟨p, hp, hpc⟩)]
          rw [getCell_applyPlacements_not_target _ _ _ _
            (fun p hp hpc => htarget ⟨p, hp, hpc⟩)]
    unfold undo
    rw [if_neg (by simp)]
    show ({ S with
        tiles := erasePlacements (applyPlacements S.tiles tps)
          ((S.moves ++ [(⟨tps, ws, pts + (if tps.length = 7 then 50 else 0)⟩ : Move)]).getLastD
            (⟨[], [], 0⟩ : Move)).tiles
        moves := (S.moves ++
          [(⟨tps, ws, pts + (if tps.length = 7 then 50 else 0)⟩ : Move)]).dropLast } : Game) = S
    rw [List.getLastD_concat, List.dropLast_concat]
    show ({ S with
        tiles := erasePlacements (applyPlacements S.tiles tps) tps
        moves := S.moves } : Game) = S
    rw [htiles]

/-- Witness for C8: the empty-history no-op and the inversion of the
triple-word play. -/
theorem claim8_undo_inverse_witness :
    undo tinyGame = tinyGame ∧ undo tripleGame' = tripleGame :=
  ⟨claim8_undo_inverse.1 tinyGame rfl,
   claim8_undo_inverse.2 [] tripleGame tripleGame' tripleMove (by decide) (by decide)
     (by rfl)⟩

theorem Store.read_alloc_lt (σ : Store) (g : Grid) {ref : Nat}
    (h : ref < σ.grids.length) : (σ.alloc g).1.read ref = σ.read ref := by
  unfold Store.alloc Store.read
  simp only [List.getD_eq_getElem?_getD, List.getElem?_append_left h]

theorem Store.read_write_ne (σ : Store) {ref ref' : Nat} (r c : Nat)
    (v : Option PlacedTile) (h : ref' ≠ ref) :
    (σ.write ref r c v).read ref' = σ.read ref' := by
  unfold Store.write Store.read
  simp only [List.getD_eq_getElem?_getD, List.getElem?_set_ne (Ne.symm h)]

theorem writePlacements_read_ne (tps : List TilePlacement) (σ : Store)
    (ref ref' : Nat) (h : ref' ≠ ref) :
    (writePlacements σ ref tps).read ref' = σ.read ref' := by
  induction tps generalizing σ with
  | nil => rfl
  | cons p rest ih =>
    show (writePlacements (σ.write ref p.row p.col (some p.tile)) ref rest).read ref' = _
    rw [ih, Store.read_write_ne _ _ _ _ h]

/-- C1: atomicity.  All writes `makeMove` performs go to a freshly
allocated copy of the tile grid, so whenever it rejects a move, the input
game — its tile grid read through the final store, together with its
squares, tile set, players, history and configuration — is exactly what it
was before the call, and only the error string is returned. -/
theorem claim1_atomicity (vw : List String) (σ : Store) (game : GameRef)
    (tps : List TilePlacement) (href : game.tiles < σ.grids.length)
    (e : String) (herr : (makeMoveRef vw σ game tps).1 = .error e) :
    realize (makeMoveRef vw σ game tps).2 game = realize σ game := by
  have hread : (writePlacements (σ.alloc (σ.read game.tiles)).1
      (σ.alloc (σ.read game.tiles)).2 tps).read game.tiles = σ.read game.tiles := by
    rw [writePlacements_read_ne _ _ _ _
        (by show game.tiles ≠ (σ.alloc (σ.read game.tiles)).2; unfold Store.alloc; omega),
      Store.read_alloc_lt σ _ href]
  by_cases hlen : tps.length = 0
  · simp only [makeMoveRef, if_pos hlen]
  · cases hfind : findInvalidTile game.tileSet tps with
    | some msg => simp only [makeMoveRef, if_neg hlen, hfind]
    | none =>
      have hfix : realize (writePlacements (σ.alloc (σ.read game.tiles)).1
          (σ.alloc (σ.read game.tiles)).2 tps) game = realize σ game := by
        unfold realize
        rw [hread]
      simp only [makeMoveRef, if_neg hlen, hfind]
      split
      · exact hfix
      · split
        · exact hfix
        · split
          · exact hfix
          · exact hfix

/-- Witness for C1: the rejected sandwich play leaves the stored input game
untouched. -/
theorem claim1_atomicity_witness :
    touchGameRef.tiles < touchStore.grids.length ∧
    realize (makeMoveRef [] touchStore touchGameRef touchMove).2 touchGameRef =
      realize touchStore touchGameRef :=
  ⟨by decide, claim1_atomicity [] touchStore touchGameRef touchMove (by decide)
    "Tiles must touch existing tiles" (by rfl)⟩

end LetterGrid
